import Mathlib

/-!
# `utils.shapeTest` (src/agents/JavaScript/lib/utils.js, lines 662-718)

A shallow embedding of the argument shape-testing helper.  The three small helpers
`utils.bytesToSize`, `utils.humanizeMs` and `utils.generateString` of the same file
follow it; what is assumed about each is said where it is defined.

* JavaScript values are the ten members of `allArgsList` plus the two closures
  that `shapeTest` itself manufactures (the synthetic success and error callbacks).
* The two counters `scheduled` and `executed` and everything observable that the
  helper does (calls of `api`, calls of the completion `callback`, arming of the
  timer) live in an explicit `Harness` record that is threaded through the code.
* The function under test, `api`, is a parameter.  It may keep private state of
  an arbitrary type `σ`.  What the harness can observe of one call of `api` is
  which of the arguments it was handed it calls before returning, whether the
  call ends in an exception, and which of the arguments it calls at some later
  time (after `shapeTest` has returned).
* Calling something that is not a function raises a `TypeError`, as in JavaScript.
* There is no `try`/`catch` in the source: an exception raised inside `api.apply`
  leaves `forEach` and `shapeTest` at once.
* `shapeTest` is synchronous and JavaScript is single-threaded, so the calls that
  `api` makes later all happen after `shapeTest` has returned (or has been left by an
  exception); they are the arguments `before` and `after` of `settle`, which name a
  function by the call of `api` and the position at which it was handed over.  A
  target that keeps a function from one call and calls it during a later call of
  itself, before returning, is outside this model.
* The completion `callback` itself is assumed to return normally.
-/

namespace utils

/-- The functions that can occur in an argument list. -/
inductive JSFun
  /-- the last member of `allArgsList`, `function() {}` -/
  | noop
  /-- the closure built for a `'callback'` position (lines 679-681) -/
  | successCallback
  /-- the closure built for an `'errorCallback'` position (lines 687-692) -/
  | errorCallback
  deriving DecidableEq, Repr

/-- The JavaScript values that `shapeTest` passes around.  Only `0` and `0.01`
occur as numbers; a number is stored in hundredths. -/
inductive JSValue
  | undefined
  | null
  | boolean (b : Bool)
  | number (hundredths : Int)
  | string (s : String)
  /-- the empty object literal -/
  | object
  /-- the empty array literal -/
  | array
  | function (f : JSFun)
  deriving DecidableEq, Repr

/-- The JavaScript `typeof` operator. -/
def typeof : JSValue → String
  | .undefined => "undefined"
  | .null => "object"
  | .boolean _ => "boolean"
  | .number _ => "number"
  | .string _ => "string"
  | .object => "object"
  | .array => "object"
  | .function _ => "function"

/-- Line 665: `[undefined, null, true, false, 0, 0.01, '', {}, [], function() {}]`. -/
def allArgsList : List JSValue :=
  [.undefined, .null, .boolean true, .boolean false, .number 0, .number 1,
   .string "", .object, .array, .function .noop]

/-- Which of the two `api.apply` lines made a call: line 702 or line 706. -/
inductive CallSite
  | allArgs
  | badArgs
  deriving DecidableEq, Repr

/-- What the harness does that can be observed from outside. -/
inductive Event
  /-- `api.apply(scope, args)` -/
  | apply (site : CallSite) (args : List JSValue)
  /-- `callback(success)` or `callback(success, detail)` -/
  | callback (success : Bool) (detail : Option String)
  /-- `setTimeout(..., delay)` -/
  | setTimeout (delay : Nat)
  deriving DecidableEq, Repr

/-- The variables `scheduled` and `executed` of one run, and the events so far. -/
structure Harness where
  scheduled : Nat
  executed : Nat
  trace : List Event
  deriving DecidableEq, Repr

/-- How a piece of code ends: it returns, or it raises an exception. -/
inductive Completion
  | normal
  | throw
  deriving DecidableEq, Repr

/-- The detail string of line 680. -/
def successFired : String := "Success callback was fired after receiving wrong argument"

/-- Calling one of the functions.  The no-op does nothing; the synthetic success
callback is lines 679-681; the synthetic error callback is lines 687-692. -/
def JSFun.call (f : JSFun) (h : Harness) : Harness :=
  match f with
  | .noop => h
  | .successCallback =>
      { h with trace := h.trace ++ [.callback false (some successFired)] }
  | .errorCallback =>
      let h1 := { h with executed := h.executed + 1 }
      if h1.executed = h1.scheduled then
        { h1 with trace := h1.trace ++ [.callback true none] }
      else h1

/-- What one call of `api` does, as far as the harness can tell. -/
structure Response where
  /-- positions of the arguments that are called before `api` returns, in order -/
  invoke : List Nat
  /-- whether `api` raises an exception of its own after those calls -/
  throws : Bool
  /-- positions of the arguments that `api` calls later, after `shapeTest` returned -/
  later : List Nat
  deriving DecidableEq, Repr

/-- A function under test with private state `σ`, applied to a receiver of type `γ`. -/
abbrev Api (σ γ : Type) := σ → γ → List JSValue → σ × Response

/-- A call that is still to come: argument `position` of call number `call` of `api`. -/
structure Pending where
  call : Nat
  position : Nat
  deriving DecidableEq, Repr

/-- The calls `api` makes before it returns.  Calling an argument that is not a
function (or is missing) raises a `TypeError` and ends the call of `api`. -/
def callEach (args : List JSValue) : List Nat → Harness → Completion × Harness
  | [], h => (.normal, h)
  | i :: rest, h =>
    match args[i]? with
    | some (.function f) => callEach args rest (f.call h)
    | _ => (.throw, h)

/-- The state of a run: how the last step ended, the state of `api`, the harness,
and the calls that `api` has announced for later. -/
structure Run (σ : Type) where
  completion : Completion
  state : σ
  harness : Harness
  pending : List Pending

/-- The call of `api` that an event records, if it records one. -/
def Event.applied? : Event → Option (CallSite × List JSValue)
  | .apply site args => some (site, args)
  | _ => none

/-- The argument lists of the calls of `api` in a trace, in order. -/
def applied (trace : List Event) : List (CallSite × List JSValue) :=
  trace.filterMap Event.applied?

/-- The call `api.apply(scope, args)`: the call is recorded, `api` makes its calls, and the
call of `api` returns or raises. -/
def applyApi {σ γ : Type} (api : Api σ γ) (scope : γ) (site : CallSite)
    (args : List JSValue) (r : Run σ) : Run σ :=
  let out := api r.state scope args
  let number := (applied r.harness.trace).length
  let res := callEach args out.2.invoke
    { r.harness with trace := r.harness.trace ++ [.apply site args] }
  { completion :=
      match res.1 with
      | .throw => .throw
      | .normal => if out.2.throws then .throw else .normal
    state := out.1
    harness := res.2
    pending := r.pending ++ out.2.later.map (fun i => ⟨number, i⟩) }

/-- Lines 671-673: `argTypes.map(function() { return argsListItem; })`. -/
def allArgs (argTypes : List String) (argsListItem : JSValue) : List JSValue :=
  argTypes.map (fun _ => argsListItem)

/-- What the mapper of lines 675-700 does for one element of `argTypes`: the value
it returns, and whether it sets `atLeastOneBad` or `hasCallback`. -/
structure Mapped where
  value : JSValue
  setsAtLeastOneBad : Bool
  setsHasCallback : Bool
  deriving DecidableEq, Repr

/-- The mapper of lines 675-700. -/
def badArgsMapper (argsListItem : JSValue) (type : String) : Mapped :=
  if type = "callback" then
    ⟨.function .successCallback, false, true⟩
  else if type = "errorCallback" then
    ⟨.function .errorCallback, false, true⟩
  else
    ⟨argsListItem, decide (type ≠ "various" ∧ typeof argsListItem ≠ type), false⟩

/-- Lines 675-700: the array `badArgs`. -/
def badArgs (argTypes : List String) (argsListItem : JSValue) : List JSValue :=
  argTypes.map (fun type => (badArgsMapper argsListItem type).value)

/-- The variable `atLeastOneBad` once `badArgs` has been built. -/
def atLeastOneBad (argTypes : List String) (argsListItem : JSValue) : Bool :=
  argTypes.any (fun type => (badArgsMapper argsListItem type).setsAtLeastOneBad)

/-- The variable `hasCallback` once `badArgs` has been built. -/
def hasCallback (argTypes : List String) (argsListItem : JSValue) : Bool :=
  argTypes.any (fun type => (badArgsMapper argsListItem type).setsHasCallback)

/-- The body of the `forEach` callback, lines 667-708, for one `argsListItem`. -/
def probe {σ γ : Type} (api : Api σ γ) (scope : γ) (argTypes : List String)
    (argsListItem : JSValue) (r : Run σ) : Run σ :=
  let r1 := applyApi api scope .allArgs (allArgs argTypes argsListItem) r
  match r1.completion with
  | .throw => r1
  | .normal =>
    if atLeastOneBad argTypes argsListItem && hasCallback argTypes argsListItem then
      applyApi api scope .badArgs (badArgs argTypes argsListItem)
        { r1 with harness := { r1.harness with scheduled := r1.harness.scheduled + 1 } }
    else r1

/-- The `forEach` of line 667 over a list of probe values; an exception ends the
iteration. -/
def forEach {σ γ : Type} (api : Api σ γ) (scope : γ) (argTypes : List String) :
    List JSValue → Run σ → Run σ
  | [], r => r
  | argsListItem :: rest, r =>
    let r1 := probe api scope argTypes argsListItem r
    match r1.completion with
    | .throw => r1
    | .normal => forEach api scope argTypes rest r1

/-- The state in which `shapeTest` starts: `scheduled = 0`, `executed = 0`. -/
def start {σ : Type} (s : σ) : Run σ := ⟨.normal, s, ⟨0, 0, []⟩, []⟩

/-- Lines 710-717: the timer is set when `executed === scheduled`. -/
def graceTimer {σ : Type} (r : Run σ) : Run σ :=
  if r.harness.executed = r.harness.scheduled then
    { r with harness := { r.harness with trace := r.harness.trace ++ [.setTimeout 2000] } }
  else r

/-- The function `utils.shapeTest(api, scope, argTypes, callback)`, up to its return (or to the
exception that leaves it). -/
def shapeTest {σ γ : Type} (api : Api σ γ) (scope : γ) (argTypes : List String)
    (s : σ) : Run σ :=
  let r := forEach api scope argTypes allArgsList (start s)
  match r.completion with
  | .throw => r
  | .normal => graceTimer r

/-- The function, if any, that a pending call reaches: the argument at that
position of that call of `api`. -/
def resolve (trace : List Event) (p : Pending) : Option JSFun :=
  match (applied trace)[p.call]? with
  | some (_, args) =>
    match args[p.position]? with
    | some (.function f) => some f
    | _ => none
  | none => none

/-- Calls of functions that happen after `shapeTest` has returned, in order. -/
def fire : List JSFun → Harness → Harness
  | [], h => h
  | f :: rest, h => fire rest (f.call h)

/-- Lines 714-716: the timer, if it was set, runs `callback(true)`. -/
def timeout (h : Harness) : Harness :=
  if Event.setTimeout 2000 ∈ h.trace then
    { h with trace := h.trace ++ [.callback true none] }
  else h

/-- Everything that happens after `shapeTest` is left: the later calls `before`,
then the expiry of the timer, then the later calls `after`. -/
def settle {σ : Type} (r : Run σ) (before after : List Pending) : Harness :=
  fire (after.filterMap (resolve r.harness.trace))
    (timeout (fire (before.filterMap (resolve r.harness.trace)) r.harness))

/-- The call of the completion callback that an event records, if it records one. -/
def Event.report? : Event → Option (Bool × Option String)
  | .callback success detail => some (success, detail)
  | _ => none

/-- The calls of the completion callback in a trace, in order. -/
def reports (trace : List Event) : List (Bool × Option String) :=
  trace.filterMap Event.report?

/-- Whether an event is a call of the completion callback. -/
def Event.isCallback : Event → Bool
  | .callback _ _ => true
  | _ => false

/-- A value other than the two synthetic callbacks. -/
def JSValue.plain : JSValue → Bool
  | .function .successCallback => false
  | .function .errorCallback => false
  | _ => true

/-- The target of the first scenario: `function(s, cb, ecb) { cb(); }`. -/
def alwaysSuccess : Api Unit Unit :=
  fun s _ _ => (s, ⟨[1], false, []⟩)

/-- The target of the second scenario:
`function(s, cb, ecb) { if (typeof s !== 'string') ecb(); else cb(); }`. -/
def typeChecked : Api Unit Unit :=
  fun s _ args =>
    (s, ⟨if typeof (args.getD 0 .undefined) ≠ "string" then [2] else [1], false, []⟩)

/-! ## Definitions used by the statements and proofs -/

/-- The relation `Grows h k`: from `h` to `k` only calls of functions happened, so `scheduled`
is the same and the trace gained nothing but calls of the completion callback. -/
def Grows (h k : Harness) : Prop :=
  k.scheduled = h.scheduled ∧
    ∃ l, k.trace = h.trace ++ l ∧ ∀ e ∈ l, e.isCallback = true

/-- The harness with one more recorded call of `api`. -/
def Harness.record (h : Harness) (site : CallSite) (args : List JSValue) : Harness :=
  { h with trace := h.trace ++ [.apply site args] }

/-- The harness after `scheduled++`. -/
def Harness.bump (h : Harness) : Harness :=
  { h with scheduled := h.scheduled + 1 }

/-- Whether line 704 lets the targeted-bad call of a probe value through. -/
def targeted (argTypes : List String) (argsListItem : JSValue) : Bool :=
  atLeastOneBad argTypes argsListItem && hasCallback argTypes argsListItem

/-- The calls of `api` that one probe value leads to when nothing raises. -/
def plan (argTypes : List String) (v : JSValue) : List (CallSite × List JSValue) :=
  (.allArgs, allArgs argTypes v) ::
    if targeted argTypes v then [(.badArgs, badArgs argTypes v)] else []

/-- A target that calls what it is handed as `cb` whenever that is a function:
`function(s, cb, ecb) { if (typeof cb === 'function') cb(); }`. -/
def successWhenCallable : Api Unit Unit :=
  fun s _ args =>
    (s, ⟨if typeof (args.getD 1 .undefined) = "function" then [1] else [], false, []⟩)

/-- A target that calls what it is handed as `ecb` at once whenever that is a function:
`function(o, ecb) { if (typeof ecb === 'function') ecb(); }`. -/
def errorAtOnce : Api Unit Unit :=
  fun s _ args =>
    (s, ⟨if typeof (args.getD 1 .undefined) = "function" then [1] else [], false, []⟩)

/-- The argument types of the two scenarios. -/
def scenario : List String := ["string", "callback", "errorCallback"]

/-- The target of the second scenario with its answer deferred:
`function(s, cb, ecb) { setTimeout(function() { if (typeof s !== 'string') ecb(); else cb(); }, 0); }`. -/
def typeCheckedLater : Api Unit Unit :=
  fun s _ args =>
    (s, ⟨[], false, if typeof (args.getD 0 .undefined) ≠ "string" then [2] else [1]⟩)

/-- A target that raises when its first argument is `null`:
`function(s, cb, ecb) { if (s === null) throw new Error(); }`. -/
def throwsOnNull : Api Unit Unit :=
  fun s _ args => (s, ⟨[], decide (args.getD 0 .undefined = .null), []⟩)

/-- Condition (i) as the specification words it: some position whose kind is not
`'callback'`, `'errorCallback'` or `'various'` has a kind other than the type name
of the probe value. -/
def badBySpec (argKinds : List String) (v : JSValue) : Bool :=
  argKinds.any (fun kind =>
    decide (kind ≠ "callback" ∧ kind ≠ "errorCallback" ∧ kind ≠ "various" ∧ kind ≠ typeof v))

/-- Condition (ii) as the specification words it: the list has at least one
`'callback'` or `'errorCallback'` position. -/
def callbackBased (argKinds : List String) : Bool :=
  argKinds.any (fun kind => decide (kind = "callback" ∨ kind = "errorCallback"))

/-- The specification's condition for the targeted-bad call of a probe value. -/
def targetedBySpec (argKinds : List String) (v : JSValue) : Bool :=
  badBySpec argKinds v && callbackBased argKinds

/-- The list of argument types without its `'various'` positions. -/
def withoutVarious (argTypes : List String) : List String :=
  argTypes.filter (fun type => decide (type ≠ "various"))

/-- No failure has been reported. -/
def NoFailure (h : Harness) : Prop :=
  ∀ d, Event.callback false d ∉ h.trace

/-- Every recorded call of the target was made with the all-same list or with the
targeted-bad list of a plain value. -/
def WellFormed (argTypes : List String) (h : Harness) : Prop :=
  ∀ c ∈ applied h.trace, ∃ v : JSValue, v.plain = true ∧
    ((c.1 = CallSite.allArgs ∧ c.2 = allArgs argTypes v) ∨
      (c.1 = CallSite.badArgs ∧ c.2 = badArgs argTypes v))

/-- Calls are scheduled, and either some of them are still unanswered or success
has been reported. -/
def Answered (h : Harness) : Prop :=
  0 < h.scheduled ∧ (h.executed < h.scheduled ∨ Event.callback true none ∈ h.trace)

/-- Between probe values: nothing is scheduled and nothing executed, or `Answered`. -/
def Settled (h : Harness) : Prop :=
  (h.scheduled = 0 ∧ h.executed = 0) ∨ Answered h

/-! ## `utils.bytesToSize` (lines 56-71)

The argument `bytes` is a whole number of bytes.  The variable `bytes` after some
divisions by `thresh` is kept as the exact fraction of the argument over a
denominator `den`; for the arguments looked at here, multiples of `thresh`, the
quotients are whole numbers and the floating-point division of the source is exact. -/

/-- Line 58: the array `units`. -/
def units : List String := ["KB", "MB", "GB", "TB", "PB", "EB", "ZB", "YB"]

/-- The method `toFixed(0)` applied to the fraction `num / den`: the sign, then the
whole number nearest to the magnitude, the larger one when two are equally near. -/
def toFixed0 (num : Int) (den : Nat) : String :=
  (if num < 0 then "-" else "") ++ toString ((2 * num.natAbs + den) / (2 * den))

/-- Lines 64-67: `do { bytes /= thresh; ++u; } while (Math.abs(bytes) >= thresh &&
u < units.length - 1)`, started with `bytes / den` in the variable `bytes`; the result
is the last denominator and the last `u`.  The first argument bounds the number of
iterations; `none` means that the bound was too small. -/
def doWhile (thresh : Nat) (bytes : Int) : Nat → Nat → Int → Option (Nat × Int)
  | 0, _, _ => none
  | fuel + 1, den, u =>
    if thresh * (den * thresh) ≤ bytes.natAbs ∧ u + 1 < (units.length : Int) - 1 then
      doWhile thresh bytes fuel (den * thresh) (u + 1)
    else some (den * thresh, u + 1)

/-- The function `utils.bytesToSize(bytes, si)`; an omitted `si` is `false`. -/
def bytesToSize (bytes : Int) (si : Bool) : String :=
  let thresh : Nat := if si then 1000 else 1024
  if bytes.natAbs < thresh then toString bytes ++ " B"
  else
    match doWhile thresh bytes units.length 1 (-1) with
    | some (den, u) => toFixed0 bytes den ++ " " ++ units.getD u.toNat "undefined"
    | none => ""

/-! ## `utils.humanizeMs` (lines 595-614)

The source computes in binary64 floating point, and so does the model: every
quotient, product and difference is the binary64 number nearest to the exact result,
the one with the even mantissa when two are equally near.  All the numbers that occur
are whole numbers, apart from the three quotients, which go straight into
`Math.floor` or `Math.round`.  The argument is a whole number of milliseconds, read
as the nearest binary64 number, as JavaScript reads a decimal literal.  Infinite
results are not modelled: the argument is taken to be below `2 ^ 1000`. -/

/-- What `humanizeMs` returns: its argument as it is (line 596), or a string. -/
inductive Humanized
  | unchanged (milliseconds : Nat)
  | text (readableTime : String)
  deriving DecidableEq, Repr

/-- The characters that `\s` matches in a JavaScript regular expression. -/
def isWhiteSpace (c : Char) : Bool :=
  c.toNat ∈ [9, 10, 11, 12, 13, 32, 160, 5760, 8232, 8233, 8239, 8287, 12288, 65279] ||
    (8192 ≤ c.toNat && c.toNat ≤ 8202)

/-- Line 611: `replace(/\s*$/, '')`, which removes the white space at the end. -/
def stripTrailing (readableTime : String) : String :=
  ⟨(readableTime.data.reverse.dropWhile isWhiteSpace).reverse⟩

/-- The whole number nearest to `num / den`, the even one when two are equally near. -/
def roundEven (num den : Nat) : Nat :=
  if 2 * (num % den) < den then num / den
  else if den < 2 * (num % den) then num / den + 1
  else if (num / den) % 2 = 0 then num / den
  else num / den + 1

/-- The number of binary digits of `n`, for `n` at most `fuel`. -/
def bitLength : Nat → Nat → Nat
  | 0, _ => 0
  | fuel + 1, n => if n = 0 then 0 else bitLength fuel (n / 2) + 1

/-- The whole part of the binary logarithm of a positive `n`. -/
def ilog2 (n : Nat) : Nat := bitLength n n - 1

/-- The whole part of the binary logarithm of `num / den`, both positive. -/
def log2Quot (num den : Nat) : Int :=
  if den * 2 ^ (ilog2 num - ilog2 den) ≤ num * 2 ^ (ilog2 den - ilog2 num) then
    (ilog2 num : Int) - ilog2 den
  else (ilog2 num : Int) - ilog2 den - 1

/-- The binary64 number nearest to `num / den`, as a pair `(m, e)` that stands for
`m * 2 ^ e`: the exponent `e` is the one for which `num / den / 2 ^ e` lies between
`2 ^ 52` and `2 ^ 53`, and `m` is that number rounded. -/
def binary64 (num den : Nat) : Nat × Int :=
  if num = 0 then (0, 0)
  else
    (roundEven (num * 2 ^ (-(log2Quot num den - 52)).toNat)
      (den * 2 ^ (log2Quot num den - 52).toNat), log2Quot num den - 52)

/-- The greatest whole number that is at most `m * 2 ^ e`. -/
def floor64 (x : Nat × Int) : Nat :=
  x.1 * 2 ^ x.2.toNat / 2 ^ (-x.2).toNat

/-- The least whole number that is at least `m * 2 ^ e`. -/
def ceil64 (x : Nat × Int) : Nat :=
  (x.1 * 2 ^ x.2.toNat + (2 ^ (-x.2).toNat - 1)) / 2 ^ (-x.2).toNat

/-- The greatest whole number that is at most `m * 2 ^ e + 1 / 2`. -/
def round64 (x : Nat × Int) : Nat :=
  (2 * (x.1 * 2 ^ x.2.toNat) + 2 ^ (-x.2).toNat) / (2 * 2 ^ (-x.2).toNat)

/-- The least whole number that is at least `m * 2 ^ e - 1 / 2`. -/
def roundNeg64 (x : Nat × Int) : Nat :=
  (2 * (x.1 * 2 ^ x.2.toNat) + (2 ^ (-x.2).toNat - 1)) / (2 * 2 ^ (-x.2).toNat)

/-- The expression `Math.floor(a / b)` for whole numbers `a` and `b > 0`: the quotient
is rounded to binary64 before `Math.floor` sees it. -/
def floorDiv (a : Int) (b : Nat) : Int :=
  if 0 ≤ a then floor64 (binary64 a.toNat b) else -(ceil64 (binary64 a.natAbs b) : Int)

/-- The expression `Math.round(a / b)` for whole numbers `a` and `b > 0`; `Math.round`
takes the nearest whole number and the greater one of two that are equally near. -/
def roundDiv (a : Int) (b : Nat) : Int :=
  if 0 ≤ a then round64 (binary64 a.toNat b)
  else -(roundNeg64 (binary64 a.natAbs b) : Int)

/-- The binary64 number nearest to the whole number `n`. -/
def flNat (n : Nat) : Nat :=
  roundEven n (2 ^ (ilog2 n - 52)) * 2 ^ (ilog2 n - 52)

/-- The binary64 number nearest to the whole number `n`, of either sign. -/
def fl (n : Int) : Int :=
  if 0 ≤ n then flNat n.toNat else -(flNat n.natAbs : Int)

/-- The search of `Number.prototype.toString` for the fewest digits: the result
`(s, k, n)` has the least `k`, starting from the given one, for which some `s` of `k`
digits has `s * 10 ^ (n - k)` rounding to `x`; of two such `s` the one nearer to `x`
is taken.  `n` is the number of digits of `x`, and the first argument bounds the
number of steps (17 digits always do). -/
def shortest (x : Nat) (n : Nat) : Nat → Nat → Nat × Nat × Nat
  | 0, k => (x, k, n)
  | fuel + 1, k =>
    let p := 10 ^ (n - k)
    let lo := x / p
    let hi := lo + 1
    let okLo := decide (flNat (lo * p) = x) && decide (10 ^ (k - 1) ≤ lo)
    let okHi := decide (flNat (hi * p) = x)
    let pick : Option Nat :=
      if okLo && okHi then
        (if x - lo * p < hi * p - x then some lo
         else if hi * p - x < x - lo * p then some hi
         else if lo % 2 = 0 then some lo else some hi)
      else if okLo then some lo
      else if okHi then some hi
      else none
    match pick with
    | some s => if s = 10 ^ k then (10 ^ (k - 1), k, n + 1) else (s, k, n)
    | none => if k < n then shortest x n fuel (k + 1) else (x, n, n)

/-- The string that JavaScript makes of a positive whole binary64 number `x`: below
`2 ^ 53` its decimal digits; from there on the fewest digits that still denote `x`,
filled up with zeros, or in exponent form from 22 digits on. -/
def numberToString (x : Nat) : String :=
  if x < 2 ^ 53 then toString x
  else
    let r := shortest x (Nat.toDigits 10 x).length 17 1
    if r.2.2 ≤ 21 then toString r.1 ++ String.mk (List.replicate (r.2.2 - r.2.1) '0')
    else if r.2.1 = 1 then toString r.1 ++ "e+" ++ toString (r.2.2 - 1)
    else
      String.mk ((toString r.1).data.take 1) ++ "." ++
        String.mk ((toString r.1).data.drop 1) ++ "e+" ++ toString (r.2.2 - 1)

/-- The function `utils.humanizeMs(milliseconds)` for a whole number of milliseconds.
The argument is never negative, so neither is `hours`; `minutes` and `seconds` can be
negative for very large arguments and are then left out by the tests `> 0`. -/
def humanizeMs (argument : Nat) : Humanized :=
  let milliseconds := flNat argument
  if milliseconds = 0 then .unchanged milliseconds
  else if milliseconds < 1000 then .text (numberToString milliseconds ++ "ms")
  else
    let hours := floorDiv milliseconds 3600000
    let readableTime₁ :=
      if hours > 0 then "" ++ (numberToString hours.toNat ++ "h ") else ""
    let minutes := floorDiv (fl (milliseconds - fl (hours * 3600000))) 60000
    let readableTime₂ :=
      if minutes > 0 then readableTime₁ ++ (numberToString minutes.toNat ++ "m ")
      else readableTime₁
    let seconds :=
      roundDiv (fl (fl (milliseconds - fl (hours * 3600000)) - fl (minutes * 60000))) 1000
    let readableTime₃ :=
      if seconds > 0 then readableTime₂ ++ (numberToString seconds.toNat ++ "s ")
      else readableTime₂
    .text (stripTrailing readableTime₃)

/-- The string the documentation of `humanizeMs` describes: the parts `h`, `m`, `s`
that are not zero, each followed by its letter, with one space between them. -/
def readable (h m s : Nat) : String :=
  " ".intercalate
    (([(h, "h"), (m, "m"), (s, "s")].filter (fun part => decide (part.1 ≠ 0))).map
      (fun part => toString part.1 ++ part.2))

/-- The value of `readableTime` before line 611, given the three parts. -/
def assemble (hours minutes seconds : Nat) : String :=
  let readableTime₁ := if hours > 0 then "" ++ (toString hours ++ "h ") else ""
  let readableTime₂ :=
    if minutes > 0 then readableTime₁ ++ (toString minutes ++ "m ") else readableTime₁
  if seconds > 0 then readableTime₂ ++ (toString seconds ++ "s ") else readableTime₂

/-- The hours of the documentation: `floor(ms / 3600000)`. -/
def hoursOf (ms : Nat) : Nat := ms / 3600000

/-- The minutes of the documentation: `floor((ms - 3600000 * h) / 60000)`. -/
def minutesOf (ms : Nat) : Nat := (ms - 3600000 * hoursOf ms) / 60000

/-- The seconds of the documentation: `round((ms - 3600000 * h - 60000 * m) / 1000)`,
the nearest whole number, the larger one when two are equally near. -/
def secondsOf (ms : Nat) : Nat :=
  (2 * (ms - 3600000 * hoursOf ms - 60000 * minutesOf ms) + 1000) / 2000

/-! ## `utils.generateString` (lines 498-500) -/

/-- The loop of `Array.prototype.join`: the elements from index `k` on are added
to the result `R`, each after the separator unless it is the first; an element that
is `undefined` adds the empty string. -/
def joinFrom (separator : String) : Nat → List (Option String) → String → String
  | _, [], R => R
  | k, element :: rest, R =>
    joinFrom separator (k + 1) rest
      ((if k > 0 then R ++ separator else R) ++ element.getD "")

/-- The call `Array.prototype.join.call({length: len}, separator)`: an object with
nothing but a `length` has `undefined` at every index. -/
def join (len : Nat) (separator : String) : String :=
  joinFrom separator 0 (List.replicate len none) ""

/-- The function `utils.generateString(length, char)`; `none` is an omitted `char`.
`length || -1` is `-1` for the length 0, and `char || 'x'` is `'x'` for an omitted
or empty `char`. -/
def generateString (length : Nat) (char : Option String) : String :=
  join (((if length = 0 then -1 else (length : Int)) + 1).toNat)
    (match char with
      | some c => if c = "" then "x" else c
      | none => "x")

/-- The string `s` written `n` times in a row. -/
def repeated (s : String) : Nat → String
  | 0 => ""
  | n + 1 => s ++ repeated s n

/-! ## More targets of `shapeTest` -/

/-- A target that calls nothing, neither at once nor later:
`function(s, cb) { }`. -/
def silent : Api Unit Unit :=
  fun s _ _ => (s, ⟨[], false, []⟩)

/-! ## Traces -/

theorem applied_append (l₁ l₂ : List Event) :
    applied (l₁ ++ l₂) = applied l₁ ++ applied l₂ := by
  simp [applied]

theorem reports_append (l₁ l₂ : List Event) :
    reports (l₁ ++ l₂) = reports l₁ ++ reports l₂ := by
  simp [reports]

theorem applied_of_callbacks {l : List Event} (hl : ∀ e ∈ l, e.isCallback = true) :
    applied l = [] := by
  induction l with
  | nil => rfl
  | cons e l ih =>
    have he := hl e (List.mem_cons_self _ _)
    have ht := ih (fun x hx => hl x (List.mem_cons_of_mem _ hx))
    cases e <;> simp_all [applied, Event.isCallback, Event.applied?]

theorem setTimeout_not_mem_of_callbacks {l : List Event}
    (hl : ∀ e ∈ l, e.isCallback = true) (n : Nat) : Event.setTimeout n ∉ l := by
  intro hmem
  have := hl _ hmem
  simp [Event.isCallback] at this

theorem Grows.refl (h : Harness) : Grows h h :=
  ⟨rfl, [], by simp, by simp⟩

theorem Grows.trans {a b c : Harness} (hab : Grows a b) (hbc : Grows b c) : Grows a c := by
  obtain ⟨hs₁, l₁, ht₁, hl₁⟩ := hab
  obtain ⟨hs₂, l₂, ht₂, hl₂⟩ := hbc
  refine ⟨hs₂.trans hs₁, l₁ ++ l₂, ?_, ?_⟩
  · rw [ht₂, ht₁, List.append_assoc]
  · intro e he
    rcases List.mem_append.mp he with h | h
    · exact hl₁ e h
    · exact hl₂ e h

theorem Grows.applied_eq {h k : Harness} (hg : Grows h k) :
    applied k.trace = applied h.trace := by
  obtain ⟨_, l, ht, hl⟩ := hg
  rw [ht, applied_append, applied_of_callbacks hl, List.append_nil]

theorem Grows.setTimeout_mem {h k : Harness} (hg : Grows h k) (n : Nat) :
    Event.setTimeout n ∈ k.trace ↔ Event.setTimeout n ∈ h.trace := by
  obtain ⟨_, l, ht, hl⟩ := hg
  rw [ht, List.mem_append]
  constructor
  · rintro (hm | hm)
    · exact hm
    · exact absurd hm (setTimeout_not_mem_of_callbacks hl n)
  · exact Or.inl

theorem call_grows (f : JSFun) (h : Harness) : Grows h (f.call h) := by
  cases f
  · exact Grows.refl h
  · exact ⟨rfl, [.callback false (some successFired)], rfl, by simp [Event.isCallback]⟩
  · unfold JSFun.call
    dsimp only
    split
    · exact ⟨rfl, [.callback true none], rfl, by simp [Event.isCallback]⟩
    · exact ⟨rfl, [], by simp, by simp⟩

theorem callEach_grows (args : List JSValue) (is : List Nat) (h : Harness) :
    Grows h (callEach args is h).2 := by
  induction is generalizing h with
  | nil => exact Grows.refl h
  | cons i rest ih =>
    unfold callEach
    split
    · exact (call_grows _ h).trans (ih _)
    · exact Grows.refl h

theorem fire_grows (fs : List JSFun) (h : Harness) : Grows h (fire fs h) := by
  induction fs generalizing h with
  | nil => exact Grows.refl h
  | cons f rest ih => exact (call_grows f h).trans (ih _)

theorem fire_append (fs gs : List JSFun) (h : Harness) :
    fire (fs ++ gs) h = fire gs (fire fs h) := by
  induction fs generalizing h with
  | nil => rfl
  | cons f rest ih => exact ih _

/-! ## Argument lists -/

theorem allArgsList_plain : ∀ v ∈ allArgsList, v.plain = true := by decide

theorem allArgs_length (argTypes : List String) (v : JSValue) :
    (allArgs argTypes v).length = argTypes.length := by
  simp [allArgs]

theorem badArgs_length (argTypes : List String) (v : JSValue) :
    (badArgs argTypes v).length = argTypes.length := by
  simp [badArgs]

theorem allArgs_getElem? (argTypes : List String) (v : JSValue) (i : Nat) :
    (allArgs argTypes v)[i]? = argTypes[i]?.map (fun _ => v) := by
  unfold allArgs
  rw [List.getElem?_map]

theorem badArgs_getElem? (argTypes : List String) (v : JSValue) (i : Nat) :
    (badArgs argTypes v)[i]? =
      argTypes[i]?.map (fun type => (badArgsMapper v type).value) := by
  unfold badArgs
  rw [List.getElem?_map]

/-- A function found in an all-same list of a plain value is the no-op. -/
theorem allArgs_function {argTypes : List String} {v : JSValue} (hv : v.plain = true)
    {i : Nat} {f : JSFun} (hf : (allArgs argTypes v)[i]? = some (.function f)) :
    f = .noop := by
  rw [allArgs_getElem?] at hf
  cases hi : argTypes[i]? with
  | none => rw [hi] at hf; simp at hf
  | some t =>
    rw [hi] at hf
    simp only [Option.map_some', Option.some.injEq] at hf
    subst hf
    cases f <;> simp_all [JSValue.plain]

/-- Calls made from an all-same list of a plain value leave the harness as it is. -/
theorem callEach_allArgs {argTypes : List String} {v : JSValue} (hv : v.plain = true)
    (is : List Nat) (h : Harness) : (callEach (allArgs argTypes v) is h).2 = h := by
  induction is generalizing h with
  | nil => rfl
  | cons i rest ih =>
    unfold callEach
    split
    · next f hf =>
      have := allArgs_function hv hf
      subst this
      exact ih h
    · rfl

/-! ## One call of `api`, one probe value, the whole iteration -/

theorem applyApi_harness {σ γ : Type} (api : Api σ γ) (scope : γ) (site : CallSite)
    (args : List JSValue) (r : Run σ) :
    (applyApi api scope site args r).harness =
      (callEach args (api r.state scope args).2.invoke (r.harness.record site args)).2 :=
  rfl

theorem applyApi_allArgs_harness {σ γ : Type} (api : Api σ γ) (scope : γ)
    (argTypes : List String) {v : JSValue} (hv : v.plain = true) (r : Run σ) :
    (applyApi api scope .allArgs (allArgs argTypes v) r).harness =
      r.harness.record .allArgs (allArgs argTypes v) := by
  rw [applyApi_harness, callEach_allArgs hv]

theorem applyApi_applied {σ γ : Type} (api : Api σ γ) (scope : γ) (site : CallSite)
    (args : List JSValue) (r : Run σ) :
    applied (applyApi api scope site args r).harness.trace =
      applied r.harness.trace ++ [(site, args)] := by
  rw [applyApi_harness, (callEach_grows _ _ _).applied_eq]
  simp [Harness.record, applied_append, applied, Event.applied?]

theorem applyApi_scheduled {σ γ : Type} (api : Api σ γ) (scope : γ) (site : CallSite)
    (args : List JSValue) (r : Run σ) :
    (applyApi api scope site args r).harness.scheduled = r.harness.scheduled := by
  rw [applyApi_harness, (callEach_grows _ _ _).1]
  rfl

theorem probe_eq {σ γ : Type} (api : Api σ γ) (scope : γ) (argTypes : List String)
    (v : JSValue) (r : Run σ) :
    probe api scope argTypes v r =
      if (applyApi api scope .allArgs (allArgs argTypes v) r).completion = .throw then
        applyApi api scope .allArgs (allArgs argTypes v) r
      else if targeted argTypes v = true then
        applyApi api scope .badArgs (badArgs argTypes v)
          { applyApi api scope .allArgs (allArgs argTypes v) r with
            harness := (applyApi api scope .allArgs (allArgs argTypes v) r).harness.bump }
      else applyApi api scope .allArgs (allArgs argTypes v) r := by
  unfold probe targeted
  dsimp only
  cases hc : (applyApi api scope .allArgs (allArgs argTypes v) r).completion <;> simp [Harness.bump]

theorem forEach_cons {σ γ : Type} (api : Api σ γ) (scope : γ) (argTypes : List String)
    (v : JSValue) (vs : List JSValue) (r : Run σ) :
    forEach api scope argTypes (v :: vs) r =
      if (probe api scope argTypes v r).completion = .throw then probe api scope argTypes v r
      else forEach api scope argTypes vs (probe api scope argTypes v r) := by
  rw [forEach]
  cases hc : (probe api scope argTypes v r).completion <;> simp [hc]

theorem completion_ne_throw {c : Completion} : c ≠ .throw ↔ c = .normal := by
  cases c <;> simp

/-- The calls of `api` that one probe value adds to the trace: the all-same call,
and after it, if it is made at all, the targeted-bad call. -/
theorem probe_applied {σ γ : Type} (api : Api σ γ) (scope : γ) (argTypes : List String)
    (v : JSValue) (r : Run σ) :
    (applied (probe api scope argTypes v r).harness.trace =
        applied r.harness.trace ++ [(.allArgs, allArgs argTypes v)] ∧
      (probe api scope argTypes v r).harness.scheduled = r.harness.scheduled ∧
      ((probe api scope argTypes v r).completion = .normal → targeted argTypes v = false)) ∨
    (applied (probe api scope argTypes v r).harness.trace =
        applied r.harness.trace ++
          [(.allArgs, allArgs argTypes v), (.badArgs, badArgs argTypes v)] ∧
      (probe api scope argTypes v r).harness.scheduled = r.harness.scheduled + 1 ∧
      targeted argTypes v = true) := by
  rw [probe_eq]
  split
  · next hc =>
    left
    refine ⟨applyApi_applied _ _ _ _ _, applyApi_scheduled _ _ _ _ _, ?_⟩
    intro hn
    rw [hn] at hc
    exact absurd hc (by simp)
  · split
    · next ht =>
      right
      refine ⟨?_, ?_, ht⟩
      · rw [applyApi_applied]
        simp only [Harness.bump]
        rw [applyApi_applied, List.append_assoc]
        rfl
      · rw [applyApi_scheduled]
        simp only [Harness.bump]
        rw [applyApi_scheduled]
    · next ht =>
      left
      refine ⟨applyApi_applied _ _ _ _ _, applyApi_scheduled _ _ _ _ _, ?_⟩
      intro _
      simpa using ht

theorem probe_normal {σ γ : Type} (api : Api σ γ) (scope : γ) (argTypes : List String)
    (v : JSValue) (r : Run σ) (hn : (probe api scope argTypes v r).completion = .normal) :
    applied (probe api scope argTypes v r).harness.trace =
        applied r.harness.trace ++ plan argTypes v ∧
      (probe api scope argTypes v r).harness.scheduled =
        r.harness.scheduled + (if targeted argTypes v then 1 else 0) := by
  rcases probe_applied api scope argTypes v r with ⟨ha, hs, ht⟩ | ⟨ha, hs, ht⟩
  · have ht := ht hn
    simp [plan, ht, ha, hs]
  · simp [plan, ht, ha, hs]

/-- When the iteration ends without an exception, the calls of `api` are those of
the plan of each probe value in turn, and `scheduled` counts the targeted ones. -/
theorem forEach_normal {σ γ : Type} (api : Api σ γ) (scope : γ) (argTypes : List String)
    (vs : List JSValue) (r : Run σ)
    (hn : (forEach api scope argTypes vs r).completion = .normal) :
    applied (forEach api scope argTypes vs r).harness.trace =
        applied r.harness.trace ++ vs.flatMap (plan argTypes) ∧
      (forEach api scope argTypes vs r).harness.scheduled =
        r.harness.scheduled + (vs.filter (targeted argTypes)).length := by
  induction vs generalizing r with
  | nil => simp [forEach]
  | cons v vs ih =>
    rw [forEach_cons] at hn ⊢
    split at hn
    · next hc => rw [hc] at hn; exact absurd hn (by simp)
    · next hc =>
      rw [if_neg hc]
      have hp := probe_normal api scope argTypes v r (completion_ne_throw.mp hc)
      have := ih _ hn
      rw [this.1, this.2, hp.1, hp.2]
      constructor
      · simp [List.flatMap_cons]
      · by_cases ht : targeted argTypes v = true
        · simp [List.filter_cons, ht]; omega
        · simp [List.filter_cons, ht]

/-! ## Invariants of the iteration -/

theorem callEach_induction (args : List JSValue) (is : List Nat) (Q : Harness → Prop)
    (hcall : ∀ i f, i ∈ is → args[i]? = some (.function f) → ∀ h, Q h → Q (f.call h))
    (h : Harness) (hQ : Q h) : Q (callEach args is h).2 := by
  induction is generalizing h with
  | nil => exact hQ
  | cons i rest ih =>
    unfold callEach
    split
    · next f hf =>
      exact ih (fun j g hj hg k hk => hcall j g (List.mem_cons_of_mem _ hj) hg k hk) _
        (hcall i f (List.mem_cons_self _ _) hf h hQ)
    · exact hQ

/-- A property `P` of the harness survives one probe value when recording the
all-same call keeps it, `scheduled++` and recording the targeted-bad call turn it
into a property `Q`, every function that `api` calls out of the targeted-bad list
keeps `Q`, and `Q` gives `P` back. -/
theorem probe_induction {σ γ : Type} (api : Api σ γ) (scope : γ) (argTypes : List String)
    {v : JSValue} (hv : v.plain = true) (P Q : Harness → Prop)
    (hall : ∀ h, P h → P (h.record .allArgs (allArgs argTypes v)))
    (hbad : targeted argTypes v = true → ∀ h, P h →
      Q (h.bump.record .badArgs (badArgs argTypes v)))
    (hcall : ∀ s i f, i ∈ (api s scope (badArgs argTypes v)).2.invoke →
      (badArgs argTypes v)[i]? = some (.function f) → ∀ h, Q h → Q (f.call h))
    (hQP : ∀ h, Q h → P h)
    (r : Run σ) (hr : P r.harness) : P (probe api scope argTypes v r).harness := by
  have h1 : P (applyApi api scope .allArgs (allArgs argTypes v) r).harness := by
    rw [applyApi_allArgs_harness api scope argTypes hv]
    exact hall _ hr
  rw [probe_eq]
  split
  · exact h1
  · split
    · next ht =>
      rw [applyApi_harness]
      apply hQP
      apply callEach_induction
      · intro i f hi hf h hQ
        exact hcall _ i f hi hf h hQ
      · exact hbad ht _ h1
    · exact h1

theorem forEach_induction {σ γ : Type} (api : Api σ γ) (scope : γ) (argTypes : List String)
    (vs : List JSValue) (P : Harness → Prop)
    (hstep : ∀ v ∈ vs, ∀ r : Run σ, P r.harness → P (probe api scope argTypes v r).harness)
    (r : Run σ) (hr : P r.harness) : P (forEach api scope argTypes vs r).harness := by
  induction vs generalizing r with
  | nil => exact hr
  | cons v vs ih =>
    rw [forEach_cons]
    have hp := hstep v (List.mem_cons_self _ _) r hr
    split
    · exact hp
    · exact ih (fun w hw => hstep w (List.mem_cons_of_mem _ hw)) _ hp

theorem forEach_append {σ γ : Type} (api : Api σ γ) (scope : γ) (argTypes : List String)
    (pre post : List JSValue) (r : Run σ)
    (hn : (forEach api scope argTypes pre r).completion = .normal) :
    forEach api scope argTypes (pre ++ post) r =
      forEach api scope argTypes post (forEach api scope argTypes pre r) := by
  induction pre generalizing r with
  | nil => rfl
  | cons v vs ih =>
    rw [List.cons_append, forEach_cons]
    rw [forEach_cons] at hn ⊢
    split
    · next hc => rw [if_pos hc] at hn; rw [hc] at hn; exact absurd hn (by simp)
    · next hc => rw [if_neg hc] at hn; exact ih _ hn

/-- The iteration never touches the timer. -/
theorem forEach_no_setTimeout {σ γ : Type} (api : Api σ γ) (scope : γ)
    (argTypes : List String) (vs : List JSValue) (r : Run σ) (n : Nat)
    (hr : Event.setTimeout n ∉ r.harness.trace) :
    Event.setTimeout n ∉ (forEach api scope argTypes vs r).harness.trace := by
  induction vs generalizing r with
  | nil => exact hr
  | cons v vs ih =>
    have key : ∀ (site : CallSite) (args : List JSValue) (q : Run σ),
        Event.setTimeout n ∉ q.harness.trace →
        Event.setTimeout n ∉ (applyApi api scope site args q).harness.trace := by
      intro site args q hq
      rw [applyApi_harness, (callEach_grows _ _ _).setTimeout_mem]
      simpa [Harness.record] using hq
    have hp : Event.setTimeout n ∉ (probe api scope argTypes v r).harness.trace := by
      rw [probe_eq]
      split
      · exact key _ _ _ hr
      · split
        · apply key
          simpa [Harness.bump] using key _ _ _ hr
        · exact key _ _ _ hr
    rw [forEach_cons]
    split
    · exact hp
    · exact ih _ hp

/-! ## Calls after `shapeTest` has returned -/

/-- What later calls report when none of them is the synthetic success callback:
`callback(true)` once, at the call of the synthetic error callback that brings
`executed` up to `scheduled`, if there is such a call. -/
theorem reports_fire (fs : List JSFun) (h : Harness) (hs : JSFun.successCallback ∉ fs) :
    reports (fire fs h).trace =
      reports h.trace ++
        (if h.executed < h.scheduled ∧ h.scheduled ≤ h.executed + fs.count .errorCallback
          then [(true, none)] else []) ∧
      (fire fs h).executed = h.executed + fs.count .errorCallback := by
  induction fs generalizing h with
  | nil => simp [fire]
  | cons f rest ih =>
    have hrest : JSFun.successCallback ∉ rest := fun hm => hs (List.mem_cons_of_mem _ hm)
    cases f with
    | noop =>
      have := ih h hrest
      simpa [fire, JSFun.call] using this
    | successCallback => exact absurd (List.mem_cons_self _ _) hs
    | errorCallback =>
      rw [fire]
      have hsch : (JSFun.errorCallback.call h).scheduled = h.scheduled := (call_grows _ h).1
      have := ih (JSFun.errorCallback.call h) hrest
      rw [this.1, this.2, hsch]
      by_cases he : h.executed + 1 = h.scheduled
      · have hex : (JSFun.errorCallback.call h).executed = h.executed + 1 := by
          simp [JSFun.call, he]
        have htr : (JSFun.errorCallback.call h).trace = h.trace ++ [.callback true none] := by
          simp [JSFun.call, he]
        rw [hex, htr, reports_append]
        have h1 : ¬ (h.executed + 1 < h.scheduled ∧
            h.scheduled ≤ h.executed + 1 + List.count JSFun.errorCallback rest) := by omega
        have h2 : h.executed < h.scheduled ∧
            h.scheduled ≤ h.executed + List.count JSFun.errorCallback (.errorCallback :: rest) := by
          simp [List.count_cons]; omega
        rw [if_neg h1, if_pos h2]
        simp [reports, Event.report?, List.count_cons]
        omega
      · have hex : (JSFun.errorCallback.call h).executed = h.executed + 1 := by
          simp [JSFun.call, he]
        have htr : (JSFun.errorCallback.call h).trace = h.trace := by
          simp [JSFun.call, he]
        rw [hex, htr]
        have hiff : (h.executed + 1 < h.scheduled ∧
            h.scheduled ≤ h.executed + 1 + List.count JSFun.errorCallback rest) ↔
            (h.executed < h.scheduled ∧
            h.scheduled ≤ h.executed + List.count JSFun.errorCallback (.errorCallback :: rest)) := by
          simp [List.count_cons]; omega
        simp only [hiff]
        simp [List.count_cons]
        omega

/-! ## The timer -/

/-- A timer is in the trace of `shapeTest` exactly when `shapeTest` returned with
`executed === scheduled`, and its delay is 2000. -/
theorem shapeTest_timer {σ γ : Type} (api : Api σ γ) (scope : γ) (argTypes : List String)
    (s : σ) (n : Nat) :
    Event.setTimeout n ∈ (shapeTest api scope argTypes s).harness.trace ↔
      n = 2000 ∧ (shapeTest api scope argTypes s).completion = .normal ∧
        (shapeTest api scope argTypes s).harness.executed =
          (shapeTest api scope argTypes s).harness.scheduled := by
  have h0 : Event.setTimeout n ∉
      (forEach api scope argTypes allArgsList (start s)).harness.trace :=
    forEach_no_setTimeout api scope argTypes allArgsList (start s) n (by simp [start])
  unfold shapeTest
  dsimp only
  cases hc : (forEach api scope argTypes allArgsList (start s)).completion with
  | throw => simp [hc, h0]
  | normal =>
    simp only [graceTimer]
    split
    · next he => simp [hc, he, h0, eq_comm]
    · next he => simp [hc, he, h0]

/-- When no timer was set, everything after `shapeTest` is the later calls in order. -/
theorem settle_unarmed {σ : Type} (r : Run σ) (before after : List Pending)
    (hno : Event.setTimeout 2000 ∉ r.harness.trace) :
    settle r before after =
      fire ((before ++ after).filterMap (resolve r.harness.trace)) r.harness := by
  unfold settle timeout
  rw [if_neg (by rw [(fire_grows _ _).setTimeout_mem]; exact hno), List.filterMap_append,
    fire_append]

/-! ## C1 -/

/-- C1, as stated, fails: with `argTypes = ['string', 'callback', 'errorCallback']`
and a target that calls its `cb` whenever it is a function, the completion callback
is called nine times (once per probe value that is not a string), not once. -/
theorem shapeTest_reports_nine_times :
    reports (settle (shapeTest successWhenCallable () ["string", "callback", "errorCallback"] ())
      [] []).trace = List.replicate 9 (false, some successFired) ∧
    (reports (settle (shapeTest successWhenCallable () ["string", "callback", "errorCallback"] ())
      [] []).trace).length ≠ 1 := by
  decide

/-- C1, amended: when `shapeTest` returns without an exception, no synthetic callback
was called while it ran (`executed` is still 0 and nothing was reported), and the
synthetic success callback is never called later, then over the whole run (later
calls `before` the timer, the timer, later calls `after` it) the completion callback
is called at most once, always with `true`; it is called exactly once when nothing
was scheduled or when the later calls of the synthetic error callback number at
least `scheduled`, and not at all otherwise. -/
theorem shapeTest_reports_once {σ γ : Type} (api : Api σ γ) (scope : γ)
    (argTypes : List String) (s : σ) (before after : List Pending)
    (hn : (shapeTest api scope argTypes s).completion = .normal)
    (he : (shapeTest api scope argTypes s).harness.executed = 0)
    (hr : reports (shapeTest api scope argTypes s).harness.trace = [])
    (hs : ∀ p ∈ before ++ after,
      resolve (shapeTest api scope argTypes s).harness.trace p ≠ some .successCallback) :
    reports (settle (shapeTest api scope argTypes s) before after).trace =
      if (shapeTest api scope argTypes s).harness.scheduled = 0 ∨
          (shapeTest api scope argTypes s).harness.scheduled ≤
            ((before ++ after).filterMap
              (resolve (shapeTest api scope argTypes s).harness.trace)).count .errorCallback
      then [(true, none)] else [] := by
  have htimer := shapeTest_timer api scope argTypes s 2000
  generalize shapeTest api scope argTypes s = r at hn he hr hs htimer ⊢
  have hB : JSFun.successCallback ∉ before.filterMap (resolve r.harness.trace) := by
    intro hm
    obtain ⟨p, hp, hres⟩ := List.mem_filterMap.mp hm
    exact hs p (List.mem_append_left _ hp) hres
  have hA : JSFun.successCallback ∉ after.filterMap (resolve r.harness.trace) := by
    intro hm
    obtain ⟨p, hp, hres⟩ := List.mem_filterMap.mp hm
    exact hs p (List.mem_append_right _ hp) hres
  have hmem : Event.setTimeout 2000 ∈
      (fire (before.filterMap (resolve r.harness.trace)) r.harness).trace ↔
      r.harness.scheduled = 0 := by
    rw [(fire_grows _ _).setTimeout_mem, htimer, he]
    simp [hn, eq_comm]
  unfold settle
  by_cases h0 : r.harness.scheduled = 0
  · have hfB := reports_fire _ r.harness hB
    have hto : timeout (fire (before.filterMap (resolve r.harness.trace)) r.harness) =
        { fire (before.filterMap (resolve r.harness.trace)) r.harness with
          trace := (fire (before.filterMap (resolve r.harness.trace)) r.harness).trace ++
            [.callback true none] } := by
      unfold timeout
      rw [if_pos (hmem.mpr h0)]
    have hfA := reports_fire (after.filterMap (resolve r.harness.trace))
      (timeout (fire (before.filterMap (resolve r.harness.trace)) r.harness)) hA
    rw [hfA.1, hto]
    have hsch : (fire (before.filterMap (resolve r.harness.trace)) r.harness).scheduled = 0 := by
      rw [(fire_grows _ _).1, h0]
    simp only [hsch, reports_append, hfB.1, hr, he, h0]
    simp [reports, Event.report?]
  · have hto : timeout (fire (before.filterMap (resolve r.harness.trace)) r.harness) =
        fire (before.filterMap (resolve r.harness.trace)) r.harness := by
      unfold timeout
      rw [if_neg (fun hm => h0 (hmem.mp hm))]
    rw [hto, ← fire_append, ← List.filterMap_append]
    have hBA : JSFun.successCallback ∉ (before ++ after).filterMap (resolve r.harness.trace) := by
      intro hm
      obtain ⟨p, hp, hres⟩ := List.mem_filterMap.mp hm
      exact hs p hp hres
    rw [(reports_fire _ r.harness hBA).1, hr, he]
    have hpos : 0 < r.harness.scheduled := Nat.pos_of_ne_zero h0
    simp [h0, hpos]

/-- The amended C1 at `['string', 'callback', 'errorCallback']` and the target that
answers later through `ecb` or `cb`: all its pending calls arrive before the timer. -/
theorem shapeTest_reports_once_witness :
    reports (settle (shapeTest typeCheckedLater () ["string", "callback", "errorCallback"] ())
      (shapeTest typeCheckedLater () ["string", "callback", "errorCallback"] ()).pending
      []).trace = [(true, none)] :=
  (shapeTest_reports_once typeCheckedLater () ["string", "callback", "errorCallback"] ()
    (shapeTest typeCheckedLater () ["string", "callback", "errorCallback"] ()).pending []
    (by decide) (by decide) (by decide) (by decide)).trans (by decide)

/-! ## C2 -/

theorem typeof_eq_function {v : JSValue} (h : typeof v = "function") :
    ∃ f, v = .function f := by
  cases v <;> first | exact ⟨_, rfl⟩ | (exfalso; revert h; simp [typeof])

theorem getD_function {args : List JSValue} {i : Nat}
    (h : typeof (args.getD i .undefined) = "function") :
    ∃ f, args[i]? = some (.function f) := by
  rw [List.getD_eq_getElem?_getD] at h
  cases ha : args[i]? with
  | none => rw [ha] at h; revert h; simp [typeof]
  | some v =>
    rw [ha] at h
    obtain ⟨f, hf⟩ := typeof_eq_function h
    exact ⟨f, by rw [← hf]; rfl⟩

/-- A target that calls only functions and raises nothing of its own never ends
a call in an exception. -/
theorem callEach_safe (args : List JSValue) (is : List Nat) (h : Harness)
    (hsafe : ∀ i ∈ is, ∃ f, args[i]? = some (.function f)) :
    (callEach args is h).1 = .normal := by
  induction is generalizing h with
  | nil => rfl
  | cons i rest ih =>
    obtain ⟨f, hf⟩ := hsafe i (List.mem_cons_self _ _)
    unfold callEach
    rw [hf]
    exact ih _ (fun j hj => hsafe j (List.mem_cons_of_mem _ hj))

theorem applyApi_safe {σ γ : Type} (api : Api σ γ) (scope : γ) (site : CallSite)
    (args : List JSValue) (r : Run σ)
    (hsafe : ∀ s args, (api s scope args).2.throws = false ∧
      ∀ i ∈ (api s scope args).2.invoke, ∃ f, args[i]? = some (.function f)) :
    (applyApi api scope site args r).completion = .normal := by
  unfold applyApi
  dsimp only
  rw [callEach_safe _ _ _ (hsafe _ _).2, (hsafe _ _).1]
  rfl

/-- Calling the argument at a position that holds the synthetic success callback
puts the failure report into the trace. -/
theorem callEach_success (args : List JSValue) (is : List Nat) (h : Harness) (j : Nat)
    (hsafe : ∀ i ∈ is, ∃ f, args[i]? = some (.function f))
    (hj : j ∈ is) (hcb : args[j]? = some (.function .successCallback)) :
    Event.callback false (some successFired) ∈ (callEach args is h).2.trace := by
  induction is generalizing h with
  | nil => exact absurd hj (List.not_mem_nil _)
  | cons i rest ih =>
    have hrest : ∀ k ∈ rest, ∃ f, args[k]? = some (.function f) :=
      fun k hk => hsafe k (List.mem_cons_of_mem _ hk)
    obtain ⟨f, hf⟩ := hsafe i (List.mem_cons_self _ _)
    unfold callEach
    rw [hf]
    dsimp only
    by_cases hij : j = i
    · subst hij
      rw [hcb] at hf
      have hfe : f = .successCallback := by
        injection hf with hf
        injection hf with hf
        exact hf.symm
      subst hfe
      obtain ⟨_, l, hl, _⟩ := callEach_grows args rest (JSFun.successCallback.call h)
      rw [hl]
      simp [JSFun.call]
    · rcases List.mem_cons.mp hj with hji | hjr
      · exact absurd hji hij
      · exact ih _ hrest hjr

theorem applyApi_trace {σ γ : Type} (api : Api σ γ) (scope : γ) (site : CallSite)
    (args : List JSValue) (r : Run σ) :
    ∃ l, (applyApi api scope site args r).harness.trace = r.harness.trace ++ l := by
  obtain ⟨_, l, hl, _⟩ := callEach_grows args (api r.state scope args).2.invoke
    (r.harness.record site args)
  exact ⟨[.apply site args] ++ l, by rw [applyApi_harness, hl]; simp [Harness.record]⟩

theorem probe_trace {σ γ : Type} (api : Api σ γ) (scope : γ) (argTypes : List String)
    (v : JSValue) (r : Run σ) :
    ∃ l, (probe api scope argTypes v r).harness.trace = r.harness.trace ++ l := by
  obtain ⟨l₁, h₁⟩ := applyApi_trace api scope .allArgs (allArgs argTypes v) r
  rw [probe_eq]
  split
  · exact ⟨l₁, h₁⟩
  · split
    · obtain ⟨l₂, h₂⟩ := applyApi_trace api scope .badArgs (badArgs argTypes v)
        { applyApi api scope .allArgs (allArgs argTypes v) r with
          harness := (applyApi api scope .allArgs (allArgs argTypes v) r).harness.bump }
      refine ⟨l₁ ++ l₂, ?_⟩
      rw [h₂]
      simp only [Harness.bump]
      rw [h₁, List.append_assoc]
    · exact ⟨l₁, h₁⟩

theorem forEach_trace {σ γ : Type} (api : Api σ γ) (scope : γ) (argTypes : List String)
    (vs : List JSValue) (r : Run σ) :
    ∃ l, (forEach api scope argTypes vs r).harness.trace = r.harness.trace ++ l := by
  induction vs generalizing r with
  | nil => exact ⟨[], by simp [forEach]⟩
  | cons v vs ih =>
    obtain ⟨l₁, h₁⟩ := probe_trace api scope argTypes v r
    rw [forEach_cons]
    split
    · exact ⟨l₁, h₁⟩
    · obtain ⟨l₂, h₂⟩ := ih (probe api scope argTypes v r)
      exact ⟨l₁ ++ l₂, by rw [h₂, h₁, List.append_assoc]⟩

theorem shapeTest_trace {σ γ : Type} (api : Api σ γ) (scope : γ) (argTypes : List String)
    (s : σ) :
    ∃ l, (shapeTest api scope argTypes s).harness.trace =
      (forEach api scope argTypes allArgsList (start s)).harness.trace ++ l := by
  unfold shapeTest
  dsimp only
  cases (forEach api scope argTypes allArgsList (start s)).completion with
  | throw => exact ⟨[], by simp⟩
  | normal =>
    dsimp only
    unfold graceTimer
    split
    · exact ⟨[.setTimeout 2000], rfl⟩
    · exact ⟨[], by simp⟩

theorem hasCallback_of_getElem? {argTypes : List String} {j : Nat} (v : JSValue)
    (hj : argTypes[j]? = some "callback") : hasCallback argTypes v = true := by
  unfold hasCallback
  rw [List.any_eq_true]
  exact ⟨"callback", List.getElem?_mem hj, by simp [badArgsMapper]⟩

theorem successWhenCallable_safe (s : Unit) (args : List JSValue) :
    (successWhenCallable s () args).2.throws = false ∧
      ∀ i ∈ (successWhenCallable s () args).2.invoke, ∃ f, args[i]? = some (.function f) := by
  refine ⟨rfl, ?_⟩
  intro i hi
  unfold successWhenCallable at hi
  dsimp only at hi
  split at hi
  · next ht =>
    rw [List.mem_singleton] at hi
    subst hi
    exact getD_function ht
  · exact absurd hi (List.not_mem_nil _)

theorem successWhenCallable_calls (s : Unit) (args : List JSValue)
    (h : args[1]? = some (.function .successCallback)) :
    1 ∈ (successWhenCallable s () args).2.invoke := by
  unfold successWhenCallable
  dsimp only
  rw [List.getD_eq_getElem?_getD, h]
  simp [typeof]

/-- C2, as stated, fails: the target `function(s, cb, ecb) { cb(); }` is handed
`undefined` as `cb` in the first all-same call and raises a `TypeError` there, so
`shapeTest` is left by an exception after one call of the target and nothing is
ever reported; and the detail string of the code starts with a capital `S`. -/
theorem shapeTest_alwaysSuccess_throws :
    (shapeTest alwaysSuccess () ["string", "callback", "errorCallback"] ()).completion
      = .throw ∧
    (shapeTest alwaysSuccess () ["string", "callback", "errorCallback"] ()).harness.trace
      = [.apply .allArgs [.undefined, .undefined, .undefined]] ∧
    reports (settle (shapeTest alwaysSuccess () ["string", "callback", "errorCallback"] ())
      [] []).trace = [] ∧
    successFired ≠ "success callback was fired after receiving wrong argument" := by
  decide

/-- C2, amended: let position `j` of `argTypes` be `'callback'`, let `undefined` (the
first probe value) be bad for `argTypes`, and let the target never raise (it raises
nothing of its own and calls only arguments that are functions) and call its
argument `j` whenever that is the synthetic success callback.  Then the trace of
`shapeTest` starts with the all-same call for `undefined`, the targeted-bad call
for `undefined`, and, before anything else happens, calls of the completion callback
among which is `callback(false, 'Success callback was fired after receiving wrong
argument')`. -/
theorem shapeTest_reports_failure {σ γ : Type} (api : Api σ γ) (scope : γ)
    (argTypes : List String) (s : σ) (j : Nat)
    (hj : argTypes[j]? = some "callback")
    (hbad : atLeastOneBad argTypes .undefined = true)
    (hsafe : ∀ s args, (api s scope args).2.throws = false ∧
      ∀ i ∈ (api s scope args).2.invoke, ∃ f, args[i]? = some (.function f))
    (hcb : ∀ s args, args[j]? = some (.function .successCallback) →
      j ∈ (api s scope args).2.invoke) :
    ∃ l rest, (shapeTest api scope argTypes s).harness.trace =
        .apply .allArgs (allArgs argTypes .undefined) ::
          .apply .badArgs (badArgs argTypes .undefined) :: (l ++ rest) ∧
      (∀ e ∈ l, e.isCallback = true) ∧
      Event.callback false (some successFired) ∈ l := by
  have ht : targeted argTypes .undefined = true := by
    simp [targeted, hbad, hasCallback_of_getElem? _ hj]
  have hargs : (badArgs argTypes .undefined)[j]? = some (.function .successCallback) := by
    rw [badArgs_getElem?, hj]
    simp [badArgsMapper]
  -- the first probe value
  have hp : ∃ l, (probe api scope argTypes .undefined (start s)).harness.trace =
      .apply .allArgs (allArgs argTypes .undefined) ::
        .apply .badArgs (badArgs argTypes .undefined) :: l ∧
      (∀ e ∈ l, e.isCallback = true) ∧
      Event.callback false (some successFired) ∈ l := by
    rw [probe_eq, if_neg (by rw [applyApi_safe _ _ _ _ _ hsafe]; simp), if_pos ht,
      applyApi_harness]
    dsimp only
    rw [applyApi_allArgs_harness api scope argTypes (by rfl)]
    have hmem := callEach_success (badArgs argTypes .undefined)
      (api (applyApi api scope .allArgs (allArgs argTypes .undefined) (start s)).state scope
        (badArgs argTypes .undefined)).2.invoke
      ((((start s).harness.record .allArgs (allArgs argTypes .undefined)).bump).record
        .badArgs (badArgs argTypes .undefined)) j (hsafe _ _).2 (hcb _ _ hargs) hargs
    obtain ⟨_, l, hl, hcbs⟩ := callEach_grows (badArgs argTypes .undefined)
      (api (applyApi api scope .allArgs (allArgs argTypes .undefined) (start s)).state scope
        (badArgs argTypes .undefined)).2.invoke
      ((((start s).harness.record .allArgs (allArgs argTypes .undefined)).bump).record
        .badArgs (badArgs argTypes .undefined))
    refine ⟨l, ?_, hcbs, ?_⟩
    · rw [hl]
      simp [Harness.record, Harness.bump, start]
    · rw [hl] at hmem
      simpa [Harness.record, Harness.bump, start] using hmem
  obtain ⟨l, hl, hcbs, hmem⟩ := hp
  obtain ⟨l₂, h₂⟩ := forEach_trace api scope argTypes allArgsList.tail
    (probe api scope argTypes .undefined (start s))
  obtain ⟨l₃, h₃⟩ := shapeTest_trace api scope argTypes s
  have hfe : forEach api scope argTypes allArgsList (start s) =
      forEach api scope argTypes allArgsList.tail
        (probe api scope argTypes .undefined (start s)) := by
    have hc : (probe api scope argTypes .undefined (start s)).completion ≠ .throw := by
      rw [probe_eq, if_neg (by rw [applyApi_safe _ _ _ _ _ hsafe]; simp), if_pos ht,
        applyApi_safe _ _ _ _ _ hsafe]
      simp
    show forEach api scope argTypes (.undefined :: allArgsList.tail) (start s) = _
    rw [forEach_cons, if_neg hc]
  refine ⟨l, l₂ ++ l₃, ?_, hcbs, hmem⟩
  rw [h₃, hfe, h₂, hl]
  simp

/-- The amended C2 at `['string', 'callback', 'errorCallback']` and the target
`function(s, cb, ecb) { if (typeof cb === 'function') cb(); }`. -/
theorem shapeTest_reports_failure_witness :
    ∃ l rest, (shapeTest successWhenCallable () ["string", "callback", "errorCallback"]
        ()).harness.trace =
        .apply .allArgs (allArgs ["string", "callback", "errorCallback"] .undefined) ::
          .apply .badArgs (badArgs ["string", "callback", "errorCallback"] .undefined) ::
            (l ++ rest) ∧
      (∀ e ∈ l, e.isCallback = true) ∧
      Event.callback false (some successFired) ∈ l :=
  shapeTest_reports_failure successWhenCallable () ["string", "callback", "errorCallback"] () 1
    (by decide) (by decide) successWhenCallable_safe successWhenCallable_calls

/-! ## C3 -/

/-- C3, as stated, fails: the target
`function(s, cb, ecb) { if (typeof s !== 'string') ecb(); else cb(); }` is handed
`undefined` as `ecb` in the first all-same call and raises a `TypeError` there;
`shapeTest` is left by that exception after one call of the target, no
targeted-bad call is made and nothing is reported. -/
theorem shapeTest_typeChecked_throws :
    (shapeTest typeChecked () scenario ()).completion = .throw ∧
    applied (shapeTest typeChecked () scenario ()).harness.trace =
      [(.allArgs, [.undefined, .undefined, .undefined])] ∧
    reports (settle (shapeTest typeChecked () scenario ()) [] []).trace = [] := by
  decide

/-- C3, amended: for `argTypes = ['string', 'callback', 'errorCallback']` and the
target that makes the same choice later,
`function(s, cb, ecb) { setTimeout(function() { if (typeof s !== 'string') ecb(); else cb(); }, 0); }`,
`shapeTest` returns; it makes only the all-same call for the empty string and the
all-same call followed by the targeted-bad call for each of the 9 other probe
values; each targeted-bad call leaves a pending call of the synthetic error
callback; and in whatever `order` the pending calls arrive, `callback(true)` is
reported when the ninth of those has arrived, not before, and it is the only report
of the run. -/
theorem shapeTest_typeCheckedLater (order : List Pending) (n : Nat)
    (hperm : order.Perm (shapeTest typeCheckedLater () scenario ()).pending) :
    (shapeTest typeCheckedLater () scenario ()).completion = .normal ∧
    applied (shapeTest typeCheckedLater () scenario ()).harness.trace =
      allArgsList.flatMap (fun v =>
        if typeof v = "string" then [(.allArgs, allArgs scenario v)]
        else [(.allArgs, allArgs scenario v), (.badArgs, badArgs scenario v)]) ∧
    (shapeTest typeCheckedLater () scenario ()).harness.scheduled = 9 ∧
    (shapeTest typeCheckedLater () scenario ()).pending.map
        (resolve (shapeTest typeCheckedLater () scenario ()).harness.trace) =
      allArgsList.flatMap (fun v =>
        if typeof v = "string" then [none]
        else [if typeof v = "function" then some .noop else none, some .errorCallback]) ∧
    reports (fire ((order.take n).filterMap
        (resolve (shapeTest typeCheckedLater () scenario ()).harness.trace))
        (shapeTest typeCheckedLater () scenario ()).harness).trace =
      (if 9 ≤ ((order.take n).filterMap
          (resolve (shapeTest typeCheckedLater () scenario ()).harness.trace)).count
            .errorCallback
        then [(true, none)] else []) ∧
    reports (settle (shapeTest typeCheckedLater () scenario ())
      (order.take n) (order.drop n)).trace = [(true, none)] := by
  have hall : ∀ p ∈ (shapeTest typeCheckedLater () scenario ()).pending,
      resolve (shapeTest typeCheckedLater () scenario ()).harness.trace p ≠
        some .successCallback := by decide
  have hord : ∀ p ∈ order,
      resolve (shapeTest typeCheckedLater () scenario ()).harness.trace p ≠
        some .successCallback := fun p hp => hall p (hperm.mem_iff.mp hp)
  have hcount : (order.filterMap
      (resolve (shapeTest typeCheckedLater () scenario ()).harness.trace)).count
        .errorCallback = 9 := by
    rw [(hperm.filterMap _).count_eq]
    decide
  refine ⟨by decide, by decide, by decide, by decide, ?_, ?_⟩
  · have hno : JSFun.successCallback ∉ (order.take n).filterMap
        (resolve (shapeTest typeCheckedLater () scenario ()).harness.trace) := by
      intro hm
      obtain ⟨p, hp, hres⟩ := List.mem_filterMap.mp hm
      exact hord p (List.mem_of_mem_take hp) hres
    rw [(reports_fire _ _ hno).1]
    have h1 : reports (shapeTest typeCheckedLater () scenario ()).harness.trace = [] := by
      decide
    have h2 : (shapeTest typeCheckedLater () scenario ()).harness.executed = 0 := by decide
    have h3 : (shapeTest typeCheckedLater () scenario ()).harness.scheduled = 9 := by decide
    rw [h1, h2, h3]
    simp
  · have hno : JSFun.successCallback ∉ order.filterMap
        (resolve (shapeTest typeCheckedLater () scenario ()).harness.trace) := by
      intro hm
      obtain ⟨p, hp, hres⟩ := List.mem_filterMap.mp hm
      exact hord p hp hres
    rw [settle_unarmed _ _ _ (by decide), List.take_append_drop, (reports_fire _ _ hno).1,
      hcount]
    have h1 : reports (shapeTest typeCheckedLater () scenario ()).harness.trace = [] := by
      decide
    have h2 : (shapeTest typeCheckedLater () scenario ()).harness.executed = 0 := by decide
    have h3 : (shapeTest typeCheckedLater () scenario ()).harness.scheduled = 9 := by decide
    rw [h1, h2, h3]
    simp

/-- The amended C3 when the pending calls arrive in the order in which they were
announced, looked at after the first four of them. -/
theorem shapeTest_typeCheckedLater_witness :
    reports (settle (shapeTest typeCheckedLater () scenario ())
      ((shapeTest typeCheckedLater () scenario ()).pending.take 4)
      ((shapeTest typeCheckedLater () scenario ()).pending.drop 4)).trace = [(true, none)] :=
  (shapeTest_typeCheckedLater (shapeTest typeCheckedLater () scenario ()).pending 4
    (List.Perm.refl _)).2.2.2.2.2

/-! ## C4 -/

theorem probe_untargeted {σ γ : Type} (api : Api σ γ) (scope : γ) (argTypes : List String)
    {v : JSValue} (hv : v.plain = true) (ht : targeted argTypes v = false) (r : Run σ) :
    (probe api scope argTypes v r).harness = r.harness.record .allArgs (allArgs argTypes v) := by
  rw [probe_eq]
  split
  · exact applyApi_allArgs_harness api scope argTypes hv r
  · rw [if_neg (by simp [ht])]
    exact applyApi_allArgs_harness api scope argTypes hv r

theorem forEach_untargeted {σ γ : Type} (api : Api σ γ) (scope : γ) (argTypes : List String)
    (vs : List JSValue) (hvs : ∀ v ∈ vs, v.plain = true ∧ targeted argTypes v = false)
    (r : Run σ) (hn : (forEach api scope argTypes vs r).completion = .normal) :
    (forEach api scope argTypes vs r).harness =
      { r.harness with
        trace := r.harness.trace ++ vs.map (fun v => .apply .allArgs (allArgs argTypes v)) } := by
  induction vs generalizing r with
  | nil => simp [forEach]
  | cons v vs ih =>
    rw [forEach_cons] at hn ⊢
    split at hn
    · next hc => rw [hc] at hn; exact absurd hn (by simp)
    · next hc =>
      rw [if_neg hc, ih (fun w hw => hvs w (List.mem_cons_of_mem _ hw)) _ hn,
        probe_untargeted api scope argTypes (hvs v (List.mem_cons_self _ _)).1
          (hvs v (List.mem_cons_self _ _)).2]
      simp [Harness.record]

theorem shapeTest_completion {σ γ : Type} (api : Api σ γ) (scope : γ)
    (argTypes : List String) (s : σ) :
    (shapeTest api scope argTypes s).completion =
      (forEach api scope argTypes allArgsList (start s)).completion := by
  unfold shapeTest
  dsimp only
  cases hc : (forEach api scope argTypes allArgsList (start s)).completion with
  | throw => simp [hc]
  | normal =>
    dsimp only
    unfold graceTimer
    split <;> simp [hc]

theorem shapeTest_normal {σ γ : Type} (api : Api σ γ) (scope : γ)
    (argTypes : List String) (s : σ)
    (hn : (shapeTest api scope argTypes s).completion = .normal) :
    shapeTest api scope argTypes s =
      graceTimer (forEach api scope argTypes allArgsList (start s)) := by
  have hc := shapeTest_completion api scope argTypes s
  rw [hn] at hc
  unfold shapeTest
  dsimp only
  rw [← hc]

theorem fire_noop (fs : List JSFun) (h : Harness) (hfs : ∀ f ∈ fs, f = .noop) :
    fire fs h = h := by
  induction fs generalizing h with
  | nil => rfl
  | cons f rest ih =>
    have hf := hfs f (List.mem_cons_self _ _)
    subst hf
    exact ih h (fun g hg => hfs g (List.mem_cons_of_mem _ hg))

/-- When every recorded call of `api` was made with an all-same list of a plain value,
a pending call can only reach the no-op function. -/
theorem resolve_noop {argTypes : List String} {trace : List Event}
    (ht : ∀ c ∈ applied trace, ∃ v : JSValue, v.plain = true ∧ c.2 = allArgs argTypes v)
    {p : Pending} {f : JSFun} (hp : resolve trace p = some f) : f = .noop := by
  unfold resolve at hp
  split at hp
  · next site args hc =>
    obtain ⟨v, hv, hargs⟩ := ht _ (List.getElem?_mem hc)
    split at hp
    · next g hg =>
      injection hp with hp
      subst hp
      dsimp only at hargs
      rw [hargs] at hg
      exact allArgs_function hv hg
    · exact absurd hp (by simp)
  · exact absurd hp (by simp)

theorem hasCallback_eq_false {argTypes : List String} (v : JSValue)
    (h1 : "callback" ∉ argTypes) (h2 : "errorCallback" ∉ argTypes) :
    hasCallback argTypes v = false := by
  unfold hasCallback
  rw [List.any_eq_false]
  intro type ht
  have n1 : type ≠ "callback" := fun h => h1 (h ▸ ht)
  have n2 : type ≠ "errorCallback" := fun h => h2 (h ▸ ht)
  simp [badArgsMapper, n1, n2]

/-- C4: when `argTypes` contains neither `'callback'` nor `'errorCallback'` and the
target does not raise, `shapeTest` calls the target exactly ten times, once per probe
value with the all-same list and never with a targeted-bad list, touches neither
counter, reports nothing itself and sets the timer with delay 2000; whatever calls
arrive later, before or after the timer, the only call of the completion callback in
the whole run is the `callback(true)` of the timer. -/
theorem shapeTest_no_callbacks {σ γ : Type} (api : Api σ γ) (scope : γ)
    (argTypes : List String) (s : σ) (before after : List Pending)
    (h1 : "callback" ∉ argTypes) (h2 : "errorCallback" ∉ argTypes)
    (hn : (shapeTest api scope argTypes s).completion = .normal) :
    (shapeTest api scope argTypes s).harness =
        ⟨0, 0, allArgsList.map (fun v => .apply .allArgs (allArgs argTypes v)) ++
          [.setTimeout 2000]⟩ ∧
      (settle (shapeTest api scope argTypes s) before after).trace =
        (shapeTest api scope argTypes s).harness.trace ++ [.callback true none] ∧
      reports (settle (shapeTest api scope argTypes s) before after).trace =
        [(true, none)] := by
  have hfe : (forEach api scope argTypes allArgsList (start s)).completion = .normal := by
    rw [← shapeTest_completion]; exact hn
  have hvs : ∀ v ∈ allArgsList, v.plain = true ∧ targeted argTypes v = false := by
    intro v hv
    exact ⟨allArgsList_plain v hv, by simp [targeted, hasCallback_eq_false v h1 h2]⟩
  have hh : (shapeTest api scope argTypes s).harness =
      ⟨0, 0, allArgsList.map (fun v => .apply .allArgs (allArgs argTypes v)) ++
        [.setTimeout 2000]⟩ := by
    rw [shapeTest_normal api scope argTypes s hn]
    unfold graceTimer
    rw [forEach_untargeted api scope argTypes allArgsList hvs (start s) hfe]
    simp [start]
  have happlied : ∀ c ∈ applied (shapeTest api scope argTypes s).harness.trace,
      ∃ v : JSValue, v.plain = true ∧ c.2 = allArgs argTypes v := by
    intro c hc
    rw [hh] at hc
    simp only [applied, List.filterMap_append, List.filterMap_map] at hc
    rcases List.mem_append.mp hc with hm | hm
    · obtain ⟨v, hv, hcv⟩ := List.mem_filterMap.mp hm
      simp only [Function.comp, Event.applied?] at hcv
      injection hcv with hcv
      exact ⟨v, allArgsList_plain v hv, by rw [← hcv]⟩
    · simp [Event.applied?] at hm
  have hfire : ∀ l : List Pending, ∀ h : Harness,
      fire (l.filterMap (resolve (shapeTest api scope argTypes s).harness.trace)) h = h := by
    intro l h
    apply fire_noop
    intro f hf
    obtain ⟨p, _, hp⟩ := List.mem_filterMap.mp hf
    exact resolve_noop happlied hp
  have hset : (settle (shapeTest api scope argTypes s) before after).trace =
      (shapeTest api scope argTypes s).harness.trace ++ [.callback true none] := by
    unfold settle
    rw [hfire, hfire]
    unfold timeout
    rw [if_pos (by rw [hh]; simp)]
  refine ⟨hh, hset, ?_⟩
  rw [hset, hh]
  simp [reports, Event.report?]

/-- C4 at `argTypes = ['string', 'object']` and the target that answers later through
its second or third argument, all its pending calls arriving before the timer. -/
theorem shapeTest_no_callbacks_witness :
    (shapeTest typeCheckedLater () ["string", "object"] ()).harness =
        ⟨0, 0, allArgsList.map (fun v => .apply .allArgs (allArgs ["string", "object"] v)) ++
          [.setTimeout 2000]⟩ ∧
      (settle (shapeTest typeCheckedLater () ["string", "object"] ())
          (shapeTest typeCheckedLater () ["string", "object"] ()).pending []).trace =
        (shapeTest typeCheckedLater () ["string", "object"] ()).harness.trace ++
          [.callback true none] ∧
      reports (settle (shapeTest typeCheckedLater () ["string", "object"] ())
          (shapeTest typeCheckedLater () ["string", "object"] ()).pending []).trace =
        [(true, none)] :=
  shapeTest_no_callbacks typeCheckedLater () ["string", "object"] ()
    (shapeTest typeCheckedLater () ["string", "object"] ()).pending []
    (by decide) (by decide) (by decide)

/-! ## C5 -/

theorem atLeastOneBad_eq_badBySpec (argTypes : List String) (v : JSValue) :
    atLeastOneBad argTypes v = badBySpec argTypes v := by
  unfold atLeastOneBad badBySpec
  congr 1
  funext type
  unfold badArgsMapper
  by_cases h1 : type = "callback"
  · simp [h1]
  · by_cases h2 : type = "errorCallback"
    · simp [h2]
    · simp [h1, h2, eq_comm]

theorem hasCallback_eq_callbackBased (argTypes : List String) (v : JSValue) :
    hasCallback argTypes v = callbackBased argTypes := by
  unfold hasCallback callbackBased
  congr 1
  funext type
  unfold badArgsMapper
  by_cases h1 : type = "callback"
  · simp [h1]
  · by_cases h2 : type = "errorCallback"
    · simp [h2]
    · simp [h1, h2]

theorem targeted_eq_targetedBySpec (argTypes : List String) (v : JSValue) :
    targeted argTypes v = targetedBySpec argTypes v := by
  unfold targeted targetedBySpec
  rw [atLeastOneBad_eq_badBySpec, hasCallback_eq_callbackBased]

theorem filter_badArgs_plan (argTypes : List String) (vs : List JSValue) :
    (vs.flatMap (plan argTypes)).filter (fun c => decide (c.1 = CallSite.badArgs)) =
      (vs.filter (targeted argTypes)).map (fun v => (CallSite.badArgs, badArgs argTypes v)) := by
  induction vs with
  | nil => rfl
  | cons v vs ih =>
    rw [List.flatMap_cons, List.filter_append, ih]
    by_cases ht : targeted argTypes v = true
    · simp [plan, ht, List.filter_cons]
    · simp [plan, ht, List.filter_cons]

theorem shapeTest_harness {σ γ : Type} (api : Api σ γ) (scope : γ)
    (argTypes : List String) (s : σ) :
    (shapeTest api scope argTypes s).harness.scheduled =
        (forEach api scope argTypes allArgsList (start s)).harness.scheduled ∧
      (shapeTest api scope argTypes s).harness.executed =
        (forEach api scope argTypes allArgsList (start s)).harness.executed ∧
      applied (shapeTest api scope argTypes s).harness.trace =
        applied (forEach api scope argTypes allArgsList (start s)).harness.trace := by
  unfold shapeTest
  dsimp only
  cases (forEach api scope argTypes allArgsList (start s)).completion with
  | throw => exact ⟨rfl, rfl, rfl⟩
  | normal =>
    dsimp only
    unfold graceTimer
    split
    · refine ⟨rfl, rfl, ?_⟩
      simp [applied, Event.applied?]
    · exact ⟨rfl, rfl, rfl⟩

/-- When `shapeTest` returns, the calls of the target are those of the plan of each
probe value in turn and `scheduled` is the number of targeted probe values. -/
theorem shapeTest_applied {σ γ : Type} (api : Api σ γ) (scope : γ)
    (argTypes : List String) (s : σ)
    (hn : (shapeTest api scope argTypes s).completion = .normal) :
    applied (shapeTest api scope argTypes s).harness.trace =
        allArgsList.flatMap (plan argTypes) ∧
      (shapeTest api scope argTypes s).harness.scheduled =
        (allArgsList.filter (targeted argTypes)).length := by
  have hfe : (forEach api scope argTypes allArgsList (start s)).completion = .normal := by
    rw [← shapeTest_completion]; exact hn
  have := forEach_normal api scope argTypes allArgsList (start s) hfe
  rw [(shapeTest_harness api scope argTypes s).1, (shapeTest_harness api scope argTypes s).2.2,
    this.1, this.2]
  simp [start, applied]

/-- Two probe values with the same targeted-bad list are the same once one of them
is bad, because a bad value stands in the list itself. -/
theorem targeted_of_badArgs_eq {argTypes : List String} {v w : JSValue}
    (hw : targeted argTypes w = true) (he : badArgs argTypes w = badArgs argTypes v) :
    w = v := by
  unfold targeted at hw
  rw [Bool.and_eq_true] at hw
  have hb := hw.1
  unfold atLeastOneBad at hb
  rw [List.any_eq_true] at hb
  obtain ⟨type, hmem, hset⟩ := hb
  obtain ⟨i, hi⟩ := List.mem_iff_getElem?.mp hmem
  have h1 : type ≠ "callback" := by
    intro h; rw [h] at hset; simp [badArgsMapper] at hset
  have h2 : type ≠ "errorCallback" := by
    intro h; rw [h] at hset; simp [badArgsMapper] at hset
  have hwv : (badArgs argTypes w)[i]? = (badArgs argTypes v)[i]? := by rw [he]
  rw [badArgs_getElem?, badArgs_getElem?, hi] at hwv
  simpa [badArgsMapper, h1, h2] using hwv

/-- C5, as stated, fails: with `argTypes = ['string', 'callback', 'errorCallback']`
and a target that raises when its first argument is `null`, the probe value `true`
meets conditions (i) and (ii) but never gets its targeted-bad call, and `scheduled`
ends as 1 although nine probe values meet the conditions: the exception at the
all-same call for `null` ends the iteration. -/
theorem shapeTest_throwsOnNull_skips :
    targetedBySpec scenario (.boolean true) = true ∧
    (CallSite.badArgs, badArgs scenario (.boolean true)) ∉
      applied (shapeTest throwsOnNull () scenario ()).harness.trace ∧
    (shapeTest throwsOnNull () scenario ()).harness.scheduled = 1 ∧
    (allArgsList.filter (targetedBySpec scenario)).length = 9 := by
  decide

/-- C5, amended: the condition under which the code makes the targeted-bad call of a
probe value is the specification's: (i) some position whose kind is not `'callback'`,
`'errorCallback'` or `'various'` has a kind other than `typeof` of the value, and
(ii) some position is `'callback'` or `'errorCallback'`.  In a run in which the
target does not raise, so that `shapeTest` returns, the targeted-bad calls are, in
order, those of the probe values that meet the condition, a probe value of
`allArgsList` gets its targeted-bad call exactly when it meets the condition, and
`scheduled` ends as the number of such probe values. -/
theorem shapeTest_targeted {σ γ : Type} (api : Api σ γ) (scope : γ)
    (argTypes : List String) (s : σ)
    (hn : (shapeTest api scope argTypes s).completion = .normal) :
    (∀ v, targeted argTypes v = true ↔
      (∃ kind ∈ argTypes, kind ≠ "callback" ∧ kind ≠ "errorCallback" ∧ kind ≠ "various" ∧
        kind ≠ typeof v) ∧
      (∃ kind ∈ argTypes, kind = "callback" ∨ kind = "errorCallback")) ∧
    (applied (shapeTest api scope argTypes s).harness.trace).filter
        (fun c => decide (c.1 = CallSite.badArgs)) =
      (allArgsList.filter (targetedBySpec argTypes)).map
        (fun v => (CallSite.badArgs, badArgs argTypes v)) ∧
    (∀ v ∈ allArgsList,
      (CallSite.badArgs, badArgs argTypes v) ∈
        applied (shapeTest api scope argTypes s).harness.trace ↔
      targetedBySpec argTypes v = true) ∧
    (shapeTest api scope argTypes s).harness.scheduled =
      (allArgsList.filter (targetedBySpec argTypes)).length := by
  have hfun : targeted argTypes = targetedBySpec argTypes :=
    funext (targeted_eq_targetedBySpec argTypes)
  have happ := shapeTest_applied api scope argTypes s hn
  refine ⟨?_, ?_, ?_, ?_⟩
  · intro v
    rw [targeted_eq_targetedBySpec]
    simp [targetedBySpec, badBySpec, callbackBased]
  · rw [happ.1, filter_badArgs_plan, hfun]
  · intro v hv
    rw [happ.1, ← targeted_eq_targetedBySpec, List.mem_flatMap]
    constructor
    · rintro ⟨w, _, hmem⟩
      unfold plan at hmem
      rcases List.mem_cons.mp hmem with h | h
      · injection h with h _
        exact absurd h (by simp)
      · split at h
        · next ht =>
          rw [List.mem_singleton] at h
          injection h with _ h
          have := targeted_of_badArgs_eq ht h.symm
          rw [← this]; exact ht
        · exact absurd h (List.not_mem_nil _)
    · intro ht
      exact ⟨v, hv, by simp [plan, ht]⟩
  · rw [happ.2, hfun]

/-- The amended C5 at `argTypes = ['object', 'errorCallback']`: seven probe values are targeted,
because `null`, the empty object and the empty array all have type `'object'`. -/
theorem shapeTest_targeted_witness :
    (shapeTest errorAtOnce () ["object", "errorCallback"] ()).harness.scheduled = 7 :=
  (shapeTest_targeted errorAtOnce () ["object", "errorCallback"] () (by decide)).2.2.2.trans
    (by decide)

/-! ## C6 -/

theorem setsAtLeastOneBad_various (v : JSValue) :
    (badArgsMapper v "various").setsAtLeastOneBad = false := by
  simp [badArgsMapper]

theorem setsHasCallback_various (v : JSValue) :
    (badArgsMapper v "various").setsHasCallback = false := by
  simp [badArgsMapper]

theorem atLeastOneBad_withoutVarious (argTypes : List String) (v : JSValue) :
    atLeastOneBad (withoutVarious argTypes) v = atLeastOneBad argTypes v := by
  induction argTypes with
  | nil => rfl
  | cons type rest ih =>
    unfold atLeastOneBad withoutVarious at ih ⊢
    by_cases hv : type = "various"
    · subst hv
      rw [List.filter_cons_of_neg (by simp), ih, List.any_cons, setsAtLeastOneBad_various]
      rfl
    · rw [List.filter_cons_of_pos (by simpa using hv), List.any_cons, List.any_cons, ih]

theorem hasCallback_withoutVarious (argTypes : List String) (v : JSValue) :
    hasCallback (withoutVarious argTypes) v = hasCallback argTypes v := by
  induction argTypes with
  | nil => rfl
  | cons type rest ih =>
    unfold hasCallback withoutVarious at ih ⊢
    by_cases hv : type = "various"
    · subst hv
      rw [List.filter_cons_of_neg (by simp), ih, List.any_cons, setsHasCallback_various]
      rfl
    · rw [List.filter_cons_of_pos (by simpa using hv), List.any_cons, List.any_cons, ih]

theorem targeted_withoutVarious (argTypes : List String) (v : JSValue) :
    targeted (withoutVarious argTypes) v = targeted argTypes v := by
  unfold targeted
  rw [atLeastOneBad_withoutVarious, hasCallback_withoutVarious]

/-- When no probe value is targeted, `scheduled` stays 0 and every call of the
target is an all-same call, whether or not the target raises. -/
theorem shapeTest_untargeted {σ γ : Type} (api : Api σ γ) (scope : γ)
    (argTypes : List String) (s : σ) (hno : ∀ v, targeted argTypes v = false) :
    (shapeTest api scope argTypes s).harness.scheduled = 0 ∧
      ∀ c ∈ applied (shapeTest api scope argTypes s).harness.trace, c.1 = CallSite.allArgs := by
  have key := forEach_induction api scope argTypes allArgsList
    (fun h => h.scheduled = 0 ∧ ∀ c ∈ applied h.trace, c.1 = CallSite.allArgs)
    (by
      intro v hv r hr
      rw [probe_untargeted api scope argTypes (allArgsList_plain v hv) (hno v)]
      refine ⟨hr.1, ?_⟩
      intro c hc
      simp only [Harness.record, applied_append] at hc
      rcases List.mem_append.mp hc with h | h
      · exact hr.2 c h
      · simp [applied, Event.applied?] at h
        rw [h])
    (start s) (by simp [start, applied])
  rw [(shapeTest_harness api scope argTypes s).1, (shapeTest_harness api scope argTypes s).2.2]
  exact key

/-- C6: a `'various'` position never helps to mark a probe value bad.  For every
probe value, `atLeastOneBad` and the decision of line 704 are the same for
`argTypes` and for `argTypes` without its `'various'` positions; in a run that
returns, `scheduled` and the sequence of targeted-bad calls are those of the probe
values that are targeted for the list without `'various'`; and when every position
is `'callback'`, `'errorCallback'` or `'various'`, nothing is scheduled and no
targeted-bad call is made. -/
theorem shapeTest_various {σ γ : Type} (api : Api σ γ) (scope : γ)
    (argTypes : List String) (s : σ) :
    (∀ v, atLeastOneBad argTypes v = atLeastOneBad (withoutVarious argTypes) v ∧
      targeted argTypes v = targeted (withoutVarious argTypes) v) ∧
    ((shapeTest api scope argTypes s).completion = .normal →
      (shapeTest api scope argTypes s).harness.scheduled =
        (allArgsList.filter (targeted (withoutVarious argTypes))).length ∧
      (applied (shapeTest api scope argTypes s).harness.trace).filter
          (fun c => decide (c.1 = CallSite.badArgs)) =
        (allArgsList.filter (targeted (withoutVarious argTypes))).map
          (fun v => (CallSite.badArgs, badArgs argTypes v))) ∧
    ((∀ type ∈ argTypes, type = "callback" ∨ type = "errorCallback" ∨ type = "various") →
      (shapeTest api scope argTypes s).harness.scheduled = 0 ∧
      ∀ c ∈ applied (shapeTest api scope argTypes s).harness.trace,
        c.1 = CallSite.allArgs) := by
  have hfun : targeted (withoutVarious argTypes) = targeted argTypes :=
    funext (targeted_withoutVarious argTypes)
  refine ⟨?_, ?_, ?_⟩
  · intro v
    exact ⟨(atLeastOneBad_withoutVarious argTypes v).symm,
      (targeted_withoutVarious argTypes v).symm⟩
  · intro hn
    have happ := shapeTest_applied api scope argTypes s hn
    rw [hfun, happ.1, happ.2, filter_badArgs_plan]
    exact ⟨rfl, rfl⟩
  · intro hall
    apply shapeTest_untargeted
    intro v
    have : atLeastOneBad argTypes v = false := by
      unfold atLeastOneBad
      rw [List.any_eq_false]
      intro type ht
      rcases hall type ht with h | h | h <;> simp [badArgsMapper, h]
    simp [targeted, this]

/-- C6 at `['various', 'string', 'errorCallback']` (as many probe values are
scheduled as for `['string', 'errorCallback']`) and at
`['various', 'callback', 'various']` (nothing is scheduled). -/
theorem shapeTest_various_witness :
    (shapeTest errorAtOnce () ["various", "string", "errorCallback"] ()).harness.scheduled =
        (allArgsList.filter (targeted ["string", "errorCallback"])).length ∧
      (shapeTest errorAtOnce () ["various", "callback", "various"] ()).harness.scheduled = 0 :=
  ⟨((shapeTest_various errorAtOnce () ["various", "string", "errorCallback"] ()).2.1
      (by decide)).1,
    ((shapeTest_various errorAtOnce () ["various", "callback", "various"] ()).2.2
      (by decide)).1⟩

/-! ## C7 -/

/-- C7, as stated, fails: with a target that raises when its first argument is
`null`, `shapeTest` is left by the exception at the all-same call for `null`, the
second probe value; the target has been called three times and the eight remaining
probe values are never tried. -/
theorem shapeTest_throwsOnNull :
    (shapeTest throwsOnNull () scenario ()).completion = .throw ∧
    applied (shapeTest throwsOnNull () scenario ()).harness.trace =
      [(.allArgs, allArgs scenario .undefined), (.badArgs, badArgs scenario .undefined),
       (.allArgs, allArgs scenario .null)] := by
  decide

/-- C7, amended: `shapeTest` does not catch.  When the probe values before `v` have
gone by without an exception and the target raises in the all-same call for `v`,
`shapeTest` is left by that exception in the state that call produced: the target
is called for none of the remaining probe values `post` and no timer is set. -/
theorem shapeTest_throw {σ γ : Type} (api : Api σ γ) (scope : γ) (argTypes : List String)
    (s : σ) (pre post : List JSValue) (v : JSValue)
    (hsplit : allArgsList = pre ++ v :: post)
    (hpre : (forEach api scope argTypes pre (start s)).completion = .normal)
    (hthrow : (applyApi api scope .allArgs (allArgs argTypes v)
      (forEach api scope argTypes pre (start s))).completion = .throw) :
    shapeTest api scope argTypes s =
        applyApi api scope .allArgs (allArgs argTypes v)
          (forEach api scope argTypes pre (start s)) ∧
      (shapeTest api scope argTypes s).completion = .throw ∧
      (∀ n, Event.setTimeout n ∉ (shapeTest api scope argTypes s).harness.trace) := by
  have hfe : forEach api scope argTypes allArgsList (start s) =
      applyApi api scope .allArgs (allArgs argTypes v)
        (forEach api scope argTypes pre (start s)) := by
    rw [hsplit, forEach_append api scope argTypes pre (v :: post) (start s) hpre, forEach_cons,
      probe_eq, if_pos hthrow, if_pos hthrow]
  have hst : shapeTest api scope argTypes s =
      applyApi api scope .allArgs (allArgs argTypes v)
        (forEach api scope argTypes pre (start s)) := by
    unfold shapeTest
    dsimp only
    rw [hfe, hthrow]
  have hc : (shapeTest api scope argTypes s).completion = .throw := by rw [hst, hthrow]
  refine ⟨hst, hc, ?_⟩
  intro n hmem
  have := (shapeTest_timer api scope argTypes s n).mp hmem
  rw [hc] at this
  exact absurd this.2.1 (by simp)

/-- The amended C7 at the target that raises when its first argument is `null`. -/
theorem shapeTest_throw_witness :
    shapeTest throwsOnNull () scenario () =
        applyApi throwsOnNull () .allArgs (allArgs scenario .null)
          (forEach throwsOnNull () scenario [.undefined] (start ())) ∧
      (shapeTest throwsOnNull () scenario ()).completion = .throw ∧
      (∀ n, Event.setTimeout n ∉ (shapeTest throwsOnNull () scenario ()).harness.trace) :=
  shapeTest_throw throwsOnNull () scenario () [.undefined]
    [.boolean true, .boolean false, .number 0, .number 1, .string "", .object, .array,
      .function .noop] .null rfl (by decide) (by decide)

/-! ## C8 -/

/-- C8 fails on the code: with `argTypes = ['object', 'errorCallback']` and a target
that calls its `ecb` at once, seven targeted-bad calls are scheduled and all seven
have been answered when the iteration ends, so `executed === scheduled` holds with
`scheduled = 7` and the timer is set although calls were scheduled; the completion
callback is then told `true` eight times, the last time by the timer. -/
theorem shapeTest_timer_with_scheduled :
    (shapeTest errorAtOnce () ["object", "errorCallback"] ()).completion = .normal ∧
    (shapeTest errorAtOnce () ["object", "errorCallback"] ()).harness.scheduled = 7 ∧
    (shapeTest errorAtOnce () ["object", "errorCallback"] ()).harness.executed = 7 ∧
    Event.setTimeout 2000 ∈ (shapeTest errorAtOnce () ["object", "errorCallback"] ()).harness.trace ∧
    reports (shapeTest errorAtOnce () ["object", "errorCallback"] ()).harness.trace =
      List.replicate 7 (true, none) ∧
    reports (settle (shapeTest errorAtOnce () ["object", "errorCallback"] ()) [] []).trace =
      List.replicate 8 (true, none) := by
  decide

/-! ## C9 -/

theorem noFailure_call {f : JSFun} (hf : f ≠ .successCallback) {h : Harness}
    (hh : NoFailure h) : NoFailure (f.call h) := by
  intro d hmem
  cases f with
  | noop => exact hh d hmem
  | successCallback => exact hf rfl
  | errorCallback =>
    unfold JSFun.call at hmem
    dsimp only at hmem
    split at hmem
    · rcases List.mem_append.mp hmem with h1 | h1
      · exact hh d h1
      · simp at h1
    · exact hh d hmem

theorem noFailure_fire {fs : List JSFun} (hfs : JSFun.successCallback ∉ fs) {h : Harness}
    (hh : NoFailure h) : NoFailure (fire fs h) := by
  induction fs generalizing h with
  | nil => exact hh
  | cons f rest ih =>
    exact ih (fun hm => hfs (List.mem_cons_of_mem _ hm))
      (noFailure_call (fun hf => hfs (hf ▸ List.mem_cons_self _ _)) hh)

theorem noFailure_append {h : Harness} (hh : NoFailure h) (e : Event)
    (he : ∀ d, e ≠ .callback false d) :
    NoFailure { h with trace := h.trace ++ [e] } := by
  intro d hmem
  rcases List.mem_append.mp hmem with h1 | h1
  · exact hh d h1
  · rw [List.mem_singleton] at h1
    exact he d h1.symm

theorem answered_call (f : JSFun) {h : Harness} (hh : Answered h) : Answered (f.call h) := by
  obtain ⟨hpos, hor⟩ := hh
  cases f with
  | noop => exact ⟨hpos, hor⟩
  | successCallback =>
    refine ⟨hpos, ?_⟩
    rcases hor with h1 | h1
    · exact Or.inl h1
    · exact Or.inr (List.mem_append_left _ h1)
  | errorCallback =>
    unfold JSFun.call
    dsimp only
    split
    · exact ⟨hpos, Or.inr (by simp)⟩
    · next hne =>
      refine ⟨hpos, ?_⟩
      rcases hor with h1 | h1
      · left
        show h.executed + 1 < h.scheduled
        have : h.executed + 1 ≠ h.scheduled := hne
        omega
      · exact Or.inr h1

theorem answered_fire (fs : List JSFun) {h : Harness} (hh : Answered h) :
    Answered (fire fs h) := by
  induction fs generalizing h with
  | nil => exact hh
  | cons f rest ih => exact ih (answered_call f hh)

theorem answered_append {h : Harness} (hh : Answered h) (e : Event) :
    Answered { h with trace := h.trace ++ [e] } := by
  obtain ⟨hpos, hor⟩ := hh
  refine ⟨hpos, ?_⟩
  rcases hor with h1 | h1
  · exact Or.inl h1
  · exact Or.inr (List.mem_append_left _ h1)

theorem settled_append {h : Harness} (hh : Settled h) (e : Event) :
    Settled { h with trace := h.trace ++ [e] } := by
  rcases hh with h1 | h1
  · exact Or.inl h1
  · exact Or.inr (answered_append h1 e)

/-- A function found in a targeted-bad list of a plain value at a position that is
not `'callback'` is not the synthetic success callback. -/
theorem badArgs_function {argTypes : List String} {v : JSValue} (hv : v.plain = true)
    {i : Nat} {f : JSFun} (hi : argTypes[i]? ≠ some "callback")
    (hf : (badArgs argTypes v)[i]? = some (.function f)) : f ≠ .successCallback := by
  intro hfs
  subst hfs
  rw [badArgs_getElem?] at hf
  cases ht : argTypes[i]? with
  | none => rw [ht] at hf; simp at hf
  | some type =>
    rw [ht] at hf hi
    have hne : type ≠ "callback" := fun h => hi (by rw [h])
    simp only [Option.map_some', Option.some.injEq] at hf
    unfold badArgsMapper at hf
    rw [if_neg hne] at hf
    split at hf
    · simp at hf
    · dsimp only at hf
      rw [hf] at hv
      simp [JSValue.plain] at hv

theorem settled_forEach {σ γ : Type} (api : Api σ γ) (scope : γ) (argTypes : List String)
    (s : σ) : Settled (forEach api scope argTypes allArgsList (start s)).harness := by
  apply forEach_induction api scope argTypes allArgsList Settled
  · intro v hv r hr
    apply probe_induction api scope argTypes (allArgsList_plain v hv) Settled Answered
    · intro h hh
      exact settled_append hh _
    · intro _ h hh
      apply answered_append
      rcases hh with ⟨h0, h1⟩ | ⟨hpos, hor⟩
      · exact ⟨by simp [Harness.bump], Or.inl (by simp [Harness.bump, h0, h1])⟩
      · refine ⟨by simp [Harness.bump], ?_⟩
        rcases hor with h1 | h1
        · exact Or.inl (by simp only [Harness.bump]; omega)
        · exact Or.inr h1
    · intro _ _ f _ _ h hh
      exact answered_call f hh
    · intro h hh
      exact Or.inr hh
    · exact hr
  · exact Or.inl ⟨rfl, rfl⟩

theorem wellFormed_forEach {σ γ : Type} (api : Api σ γ) (scope : γ) (argTypes : List String)
    (s : σ) : WellFormed argTypes (forEach api scope argTypes allArgsList (start s)).harness := by
  apply forEach_induction api scope argTypes allArgsList (WellFormed argTypes)
  · intro v hv r hr c hc
    have hpl := allArgsList_plain v hv
    rcases probe_applied api scope argTypes v r with ⟨ha, _, _⟩ | ⟨ha, _, _⟩
    · rw [ha] at hc
      rcases List.mem_append.mp hc with h | h
      · exact hr c h
      · rw [List.mem_singleton] at h
        exact ⟨v, hpl, Or.inl ⟨by rw [h], by rw [h]⟩⟩
    · rw [ha] at hc
      rcases List.mem_append.mp hc with h | h
      · exact hr c h
      · rcases List.mem_cons.mp h with h | h
        · exact ⟨v, hpl, Or.inl ⟨by rw [h], by rw [h]⟩⟩
        · rw [List.mem_singleton] at h
          exact ⟨v, hpl, Or.inr ⟨by rw [h], by rw [h]⟩⟩
  · intro c hc
    simp [start, applied] at hc

theorem noFailure_forEach {σ γ : Type} (api : Api σ γ) (scope : γ) (argTypes : List String)
    (s : σ)
    (hsync : ∀ s v, ∀ i ∈ (api s scope (badArgs argTypes v)).2.invoke,
      argTypes[i]? ≠ some "callback") :
    NoFailure (forEach api scope argTypes allArgsList (start s)).harness := by
  apply forEach_induction api scope argTypes allArgsList NoFailure
  · intro v hv r hr
    apply probe_induction api scope argTypes (allArgsList_plain v hv) NoFailure NoFailure
    · intro h hh
      exact noFailure_append hh _ (by simp)
    · intro _ h hh
      exact noFailure_append (h := h.bump) hh _ (by simp)
    · intro s i f hi hf h hh
      exact noFailure_call (badArgs_function (allArgsList_plain v hv) (hsync s v i hi) hf) hh
    · exact fun _ hh => hh
    · exact hr
  · intro d hmem
    simp [start] at hmem

/-- The harness of `shapeTest` is that of the iteration, with at most the timer added. -/
theorem shapeTest_harness_eq {σ γ : Type} (api : Api σ γ) (scope : γ)
    (argTypes : List String) (s : σ) :
    (shapeTest api scope argTypes s).harness =
        (forEach api scope argTypes allArgsList (start s)).harness ∨
      (shapeTest api scope argTypes s).harness =
        { (forEach api scope argTypes allArgsList (start s)).harness with
          trace := (forEach api scope argTypes allArgsList (start s)).harness.trace ++
            [.setTimeout 2000] } := by
  unfold shapeTest
  dsimp only
  cases (forEach api scope argTypes allArgsList (start s)).completion with
  | throw => exact Or.inl rfl
  | normal =>
    dsimp only
    unfold graceTimer
    split
    · exact Or.inr rfl
    · exact Or.inl rfl

theorem timeout_cases (h : Harness) :
    timeout h = h ∨ timeout h = { h with trace := h.trace ++ [.callback true none] } := by
  unfold timeout
  split
  · exact Or.inr rfl
  · exact Or.inl rfl

/-- A pending call never reaches the synthetic success callback when, out of a
targeted-bad call, it is not aimed at a `'callback'` position. -/
theorem resolve_ne_success {argTypes : List String} {h : Harness}
    (hw : WellFormed argTypes h) {p : Pending}
    (hp : ∀ args, (applied h.trace)[p.call]? = some (CallSite.badArgs, args) →
      argTypes[p.position]? ≠ some "callback") :
    resolve h.trace p ≠ some .successCallback := by
  intro hres
  unfold resolve at hres
  split at hres
  · next site args hc =>
    obtain ⟨v, hv, hor⟩ := hw _ (List.getElem?_mem hc)
    split at hres
    · next g hg =>
      injection hres with hres
      subst hres
      dsimp only at hor
      rcases hor with ⟨_, hargs⟩ | ⟨hsite, hargs⟩
      · rw [hargs] at hg
        exact absurd (allArgs_function hv hg) (by simp)
      · subst hsite
        have := hp args hc
        rw [hargs] at hg
        exact badArgs_function hv this hg rfl
    · exact absurd hres (by simp)
  · exact absurd hres (by simp)

/-- C9: let the target, in every targeted-bad call, call no argument at a
`'callback'` position before it returns, and let no later call be aimed at a
`'callback'` position of a targeted-bad call.  Then over the whole run the
completion callback is never told `false`; whenever calls were scheduled and
`executed` has reached `scheduled`, it has been told `true`; and the call of the
synthetic error callback that makes `executed` equal to `scheduled` is the one that
reports `true`. -/
theorem shapeTest_error_only {σ γ : Type} (api : Api σ γ) (scope : γ)
    (argTypes : List String) (s : σ) (before after : List Pending)
    (hsync : ∀ s v, ∀ i ∈ (api s scope (badArgs argTypes v)).2.invoke,
      argTypes[i]? ≠ some "callback")
    (hlater : ∀ p ∈ before ++ after, ∀ args,
      (applied (shapeTest api scope argTypes s).harness.trace)[p.call]? =
        some (CallSite.badArgs, args) → argTypes[p.position]? ≠ some "callback") :
    (∀ d, Event.callback false d ∉
      (settle (shapeTest api scope argTypes s) before after).trace) ∧
    (0 < (settle (shapeTest api scope argTypes s) before after).scheduled →
      (settle (shapeTest api scope argTypes s) before after).scheduled ≤
        (settle (shapeTest api scope argTypes s) before after).executed →
      Event.callback true none ∈
        (settle (shapeTest api scope argTypes s) before after).trace) ∧
    (∀ h : Harness, h.executed + 1 = h.scheduled →
      (JSFun.errorCallback.call h).trace = h.trace ++ [.callback true none]) := by
  have hnf : NoFailure (shapeTest api scope argTypes s).harness := by
    rcases shapeTest_harness_eq api scope argTypes s with h | h
    · rw [h]; exact noFailure_forEach api scope argTypes s hsync
    · rw [h]; exact noFailure_append (noFailure_forEach api scope argTypes s hsync) _ (by simp)
  have hst : Settled (shapeTest api scope argTypes s).harness := by
    rcases shapeTest_harness_eq api scope argTypes s with h | h
    · rw [h]; exact settled_forEach api scope argTypes s
    · rw [h]; exact settled_append (settled_forEach api scope argTypes s) _
  have hwf : WellFormed argTypes (shapeTest api scope argTypes s).harness := by
    unfold WellFormed
    rw [(shapeTest_harness api scope argTypes s).2.2]
    exact wellFormed_forEach api scope argTypes s
  have hres : ∀ l : List Pending, (∀ p ∈ l, p ∈ before ++ after) →
      JSFun.successCallback ∉
        l.filterMap (resolve (shapeTest api scope argTypes s).harness.trace) := by
    intro l hl hm
    obtain ⟨p, hp, hr⟩ := List.mem_filterMap.mp hm
    exact resolve_ne_success hwf (hlater p (hl p hp)) hr
  have hB := hres before (fun p hp => List.mem_append_left _ hp)
  have hA := hres after (fun p hp => List.mem_append_right _ hp)
  refine ⟨?_, ?_, ?_⟩
  · unfold settle
    apply noFailure_fire hA
    rcases timeout_cases
      (fire (before.filterMap (resolve (shapeTest api scope argTypes s).harness.trace))
        (shapeTest api scope argTypes s).harness) with h | h
    · rw [h]; exact noFailure_fire hB hnf
    · rw [h]; exact noFailure_append (noFailure_fire hB hnf) _ (by simp)
  · unfold settle
    intro hpos hle
    have hsch : (fire (after.filterMap (resolve (shapeTest api scope argTypes s).harness.trace))
        (timeout (fire (before.filterMap
          (resolve (shapeTest api scope argTypes s).harness.trace))
          (shapeTest api scope argTypes s).harness))).scheduled =
        (shapeTest api scope argTypes s).harness.scheduled := by
      rw [(fire_grows _ _).1]
      rcases timeout_cases
        (fire (before.filterMap (resolve (shapeTest api scope argTypes s).harness.trace))
          (shapeTest api scope argTypes s).harness) with h | h
      · rw [h, (fire_grows _ _).1]
      · rw [h]; exact (fire_grows _ _).1
    have hans : Answered (shapeTest api scope argTypes s).harness := by
      rcases hst with ⟨h0, _⟩ | h
      · rw [hsch, h0] at hpos; exact absurd hpos (by simp)
      · exact h
    have hfin : Answered
        (fire (after.filterMap (resolve (shapeTest api scope argTypes s).harness.trace))
        (timeout (fire (before.filterMap
          (resolve (shapeTest api scope argTypes s).harness.trace))
          (shapeTest api scope argTypes s).harness))) := by
      apply answered_fire
      rcases timeout_cases
        (fire (before.filterMap (resolve (shapeTest api scope argTypes s).harness.trace))
          (shapeTest api scope argTypes s).harness) with h | h
      · rw [h]; exact answered_fire _ hans
      · rw [h]; exact answered_append (answered_fire _ hans) _
    rcases hfin.2 with h | h
    · omega
    · exact h
  · intro h he
    simp [JSFun.call, he]

theorem errorAtOnce_invoke {s : Unit} {args : List JSValue} {i : Nat}
    (hi : i ∈ (errorAtOnce s () args).2.invoke) : i = 1 := by
  unfold errorAtOnce at hi
  dsimp only at hi
  split at hi
  · exact List.mem_singleton.mp hi
  · exact absurd hi (List.not_mem_nil _)

/-- C9 at `argTypes = ['object', 'errorCallback']` and the target that calls its `ecb`
at once, the `ecb` of the first targeted-bad call being called once more later. -/
theorem shapeTest_error_only_witness :
    (∀ d, Event.callback false d ∉
      (settle (shapeTest errorAtOnce () ["object", "errorCallback"] ()) [⟨1, 1⟩] []).trace) ∧
    (0 < (settle (shapeTest errorAtOnce () ["object", "errorCallback"] ())
        [⟨1, 1⟩] []).scheduled →
      (settle (shapeTest errorAtOnce () ["object", "errorCallback"] ()) [⟨1, 1⟩] []).scheduled ≤
        (settle (shapeTest errorAtOnce () ["object", "errorCallback"] ()) [⟨1, 1⟩] []).executed →
      Event.callback true none ∈
        (settle (shapeTest errorAtOnce () ["object", "errorCallback"] ()) [⟨1, 1⟩] []).trace) ∧
    (∀ h : Harness, h.executed + 1 = h.scheduled →
      (JSFun.errorCallback.call h).trace = h.trace ++ [.callback true none]) :=
  shapeTest_error_only errorAtOnce () ["object", "errorCallback"] () [⟨1, 1⟩] []
    (fun _ _ i hi => by rw [errorAtOnce_invoke hi]; decide)
    (fun p hp _ _ => by
      rw [List.append_nil, List.mem_singleton] at hp
      rw [hp]
      decide)

/-! ## C10 -/

/-- C10: for every probe value and every list of argument types, the all-same list
and the targeted-bad list both have the length of `argTypes`; the all-same list
holds the probe value at every position; the targeted-bad list holds the synthetic
success callback at every `'callback'` position, the synthetic error callback at
every `'errorCallback'` position and the probe value everywhere else; one probe value
adds to the calls of the target its all-same call and, after it, at most its
targeted-bad call; and in a run that returns the calls of the target are, probe
value by probe value, the all-same call followed by the targeted-bad call if the
value is targeted. -/
theorem shapeTest_argument_lists {σ γ : Type} (api : Api σ γ) (scope : γ)
    (argTypes : List String) (s : σ) (v : JSValue) (r : Run σ)
    (hn : (shapeTest api scope argTypes s).completion = .normal) :
    (allArgs argTypes v).length = argTypes.length ∧
    (∀ i : Nat, i < argTypes.length → (allArgs argTypes v)[i]? = some v) ∧
    (badArgs argTypes v).length = argTypes.length ∧
    (∀ (i : Nat) (type : String), argTypes[i]? = some type →
      (type = "callback" →
        (badArgs argTypes v)[i]? = some (JSValue.function .successCallback)) ∧
      (type = "errorCallback" →
        (badArgs argTypes v)[i]? = some (JSValue.function .errorCallback)) ∧
      (type ≠ "callback" → type ≠ "errorCallback" → (badArgs argTypes v)[i]? = some v)) ∧
    (applied (probe api scope argTypes v r).harness.trace =
        applied r.harness.trace ++ [(.allArgs, allArgs argTypes v)] ∨
      applied (probe api scope argTypes v r).harness.trace =
        applied r.harness.trace ++
          [(.allArgs, allArgs argTypes v), (.badArgs, badArgs argTypes v)]) ∧
    applied (shapeTest api scope argTypes s).harness.trace =
      allArgsList.flatMap (fun w =>
        (.allArgs, allArgs argTypes w) ::
          if targeted argTypes w then [(.badArgs, badArgs argTypes w)] else []) := by
  refine ⟨allArgs_length argTypes v, ?_, badArgs_length argTypes v, ?_, ?_, ?_⟩
  · intro i hi
    rw [allArgs_getElem?, List.getElem?_eq_getElem hi]
    rfl
  · intro i type hi
    rw [badArgs_getElem?, hi]
    refine ⟨?_, ?_, ?_⟩
    · intro h; simp [badArgsMapper, h]
    · intro h; simp [badArgsMapper, h]
    · intro h1 h2; simp [badArgsMapper, h1, h2]
  · rcases probe_applied api scope argTypes v r with ⟨ha, _, _⟩ | ⟨ha, _, _⟩
    · exact Or.inl ha
    · exact Or.inr ha
  · exact (shapeTest_applied api scope argTypes s hn).1

/-- C10 at `argTypes = ['string', 'callback', 'errorCallback']`, the probe value `0`
and the target that answers later: the run returns, and its calls are as stated. -/
theorem shapeTest_argument_lists_witness :
    applied (shapeTest typeCheckedLater () scenario ()).harness.trace =
      allArgsList.flatMap (fun w =>
        (.allArgs, allArgs scenario w) ::
          if targeted scenario w then [(.badArgs, badArgs scenario w)] else []) :=
  (shapeTest_argument_lists typeCheckedLater () scenario () (.number 0) (start ())
    (by decide)).2.2.2.2.2

/-! ## C11 -/

/-- The loop of `bytesToSize` ends within `units.length` iterations. -/
theorem doWhile_isSome (thresh : Nat) (bytes : Int) (fuel den : Nat) (u : Int)
    (hfuel : (units.length : Int) - 1 - u ≤ fuel) (hpos : 0 < fuel) :
    (doWhile thresh bytes fuel den u).isSome = true := by
  induction fuel generalizing den u with
  | zero => exact absurd hpos (by simp)
  | succ fuel ih =>
    unfold doWhile
    split
    · next hc =>
      apply ih
      · push_cast at hfuel; omega
      · have := hc.2
        push_cast at hfuel
        omega
    · rfl

theorem bytesToSize_returns (bytes : Int) (si : Bool) :
    (doWhile (if si then 1000 else 1024) bytes units.length 1 (-1)).isSome = true :=
  doWhile_isSome _ _ _ _ _ (by simp [units]) (by simp [units])

/-- What the code returns for a whole number `k` of binary or decimal kilobytes. -/
theorem bytesToSize_kilo (k : Nat) (si : Bool) (h1 : 1 ≤ k)
    (h2 : k < if si then 1000 else 1024) :
    bytesToSize ((if si then 1000 else 1024 : Nat) * (k : Int)) si = toString k ++ " KB" := by
  cases si with
  | false =>
    simp only [Bool.false_eq_true, if_false] at h2 ⊢
    have hab : ((1024 : Nat) * (k : Int)).natAbs = 1024 * k := by
      rw [Int.natAbs_mul]; simp
    have hneg : ¬ ((1024 : Nat) * (k : Int) < 0) := by omega
    unfold bytesToSize
    simp only [Bool.false_eq_true, if_false, hab]
    rw [if_neg (by omega)]
    have hu : units.length = 7 + 1 := rfl
    rw [hu, doWhile, if_neg (by omega)]
    simp only [toFixed0, hab, if_neg hneg]
    have hdiv : (2 * (1024 * k) + 1 * 1024) / (2 * (1 * 1024)) = k := by omega
    rw [hdiv]
    simp [units, String.append_assoc]
  | true =>
    simp only [if_true] at h2 ⊢
    have hab : ((1000 : Nat) * (k : Int)).natAbs = 1000 * k := by
      rw [Int.natAbs_mul]; simp
    have hneg : ¬ ((1000 : Nat) * (k : Int) < 0) := by omega
    unfold bytesToSize
    simp only [if_true, hab]
    rw [if_neg (by omega)]
    have hu : units.length = 7 + 1 := rfl
    rw [hu, doWhile, if_neg (by omega)]
    simp only [toFixed0, hab, if_neg hneg]
    have hdiv : (2 * (1000 * k) + 1 * 1000) / (2 * (1 * 1000)) = k := by omega
    rw [hdiv]
    simp [units, String.append_assoc]

/-- C11 fails on the code: `bytesToSize(1024)` is `'1 KB'`, not the `'1KiB'` of the
documentation, and `bytesToSize(1000, true)` is `'1 KB'`, not `'1KB'`: the code puts a
space between the number and the unit, and it has no binary unit names. -/
theorem bytesToSize_documented :
    bytesToSize 1024 false = "1 KB" ∧ bytesToSize 1024 false ≠ "1KiB" ∧
    bytesToSize 1000 true = "1 KB" ∧ bytesToSize 1000 true ≠ "1KB" ∧
    bytesToSize (1024 * 5) false = "5 KB" ∧ bytesToSize (1000 * 5) true = "5 KB" := by
  decide

/-! ## C12 -/

theorem stripTrailing_mk (l : List Char) (c : Char) (hc : isWhiteSpace c = false) :
    stripTrailing ⟨l ++ [c, ' ']⟩ = ⟨l ++ [c]⟩ := by
  have hs : isWhiteSpace ' ' = true := by decide
  simp [stripTrailing, List.dropWhile_cons, hs, hc]

/-- Unless all three parts are zero, the assembled string is the documented string
followed by one space, and the documented string ends in one of the letters. -/
theorem assemble_form (H M S : Nat) (hne : ¬ (H = 0 ∧ M = 0 ∧ S = 0)) :
    ∃ (l : List Char) (c : Char), isWhiteSpace c = false ∧
      assemble H M S = ⟨l ++ [c, ' ']⟩ ∧ readable H M S = ⟨l ++ [c]⟩ := by
  have wh : isWhiteSpace 'h' = false := by decide
  have wm : isWhiteSpace 'm' = false := by decide
  have ws : isWhiteSpace 's' = false := by decide
  by_cases hH : H = 0 <;> by_cases hM : M = 0 <;> by_cases hS : S = 0
  · exact absurd ⟨hH, hM, hS⟩ hne
  · refine ⟨(toString S).data, 's', ws, ?_, ?_⟩ <;> apply String.ext <;>
      simp [assemble, readable, List.filter, hH, hM, hS, Nat.pos_of_ne_zero,
        String.intercalate, String.intercalate.go]
  · refine ⟨(toString M).data, 'm', wm, ?_, ?_⟩ <;> apply String.ext <;>
      simp [assemble, readable, List.filter, hH, hM, hS, Nat.pos_of_ne_zero,
        String.intercalate, String.intercalate.go]
  · refine ⟨(toString M).data ++ ['m', ' '] ++ (toString S).data, 's', ws, ?_, ?_⟩ <;>
      apply String.ext <;>
      simp [assemble, readable, List.filter, hH, hM, hS, Nat.pos_of_ne_zero,
        String.intercalate, String.intercalate.go]
  · refine ⟨(toString H).data, 'h', wh, ?_, ?_⟩ <;> apply String.ext <;>
      simp [assemble, readable, List.filter, hH, hM, hS, Nat.pos_of_ne_zero,
        String.intercalate, String.intercalate.go]
  · refine ⟨(toString H).data ++ ['h', ' '] ++ (toString S).data, 's', ws, ?_, ?_⟩ <;>
      apply String.ext <;>
      simp [assemble, readable, List.filter, hH, hM, hS, Nat.pos_of_ne_zero,
        String.intercalate, String.intercalate.go]
  · refine ⟨(toString H).data ++ ['h', ' '] ++ (toString M).data, 'm', wm, ?_, ?_⟩ <;>
      apply String.ext <;>
      simp [assemble, readable, List.filter, hH, hM, hS, Nat.pos_of_ne_zero,
        String.intercalate, String.intercalate.go]
  · refine ⟨(toString H).data ++ ['h', ' '] ++ (toString M).data ++ ['m', ' '] ++
        (toString S).data, 's', ws, ?_, ?_⟩ <;> apply String.ext <;>
      simp [assemble, readable, List.filter, hH, hM, hS, Nat.pos_of_ne_zero,
        String.intercalate, String.intercalate.go]

/-! ### Binary64 arithmetic on whole numbers below `2 ^ 53` -/

theorem bitLength_le (fuel n k : Nat) (h : n < 2 ^ k) : bitLength fuel n ≤ k := by
  induction fuel generalizing n k with
  | zero => simp [bitLength]
  | succ fuel ih =>
    unfold bitLength
    split
    · omega
    · next hn =>
      cases k with
      | zero =>
        simp at h
        exact absurd h hn
      | succ k =>
        have h2 : n / 2 < 2 ^ k := by
          rw [Nat.pow_succ] at h
          omega
        have := ih (n / 2) k h2
        omega

theorem ilog2_le (n k : Nat) (h : n < 2 ^ (k + 1)) : ilog2 n ≤ k := by
  unfold ilog2
  have := bitLength_le n n (k + 1) h
  omega

/-- A whole number below `2 ^ 53` is a binary64 number. -/
theorem flNat_eq (n : Nat) (h : n < 2 ^ 53) : flNat n = n := by
  have := ilog2_le n 52 h
  have e : ilog2 n - 52 = 0 := by omega
  unfold flNat
  rw [e]
  simp [roundEven, Nat.mod_one]

theorem fl_natCast (n : Nat) (h : n < 2 ^ 53) : fl (n : Int) = n := by
  unfold fl
  rw [if_pos (Int.natCast_nonneg n), Int.toNat_natCast, flNat_eq n h]

theorem roundEven_ge (x den k : Nat) (hden : 0 < den) (h : k * den ≤ x) :
    k ≤ roundEven x den := by
  have hk : k ≤ x / den := (Nat.le_div_iff_mul_le hden).mpr h
  unfold roundEven
  split
  · exact hk
  · split
    · omega
    · split <;> omega

theorem roundEven_lt (x den K : Nat) (hden : 0 < den) (h : 2 * x + den < 2 * (K * den)) :
    roundEven x den < K := by
  have hx := Nat.div_add_mod x den
  have hr := Nat.mod_lt x hden
  have key : ∀ j, 2 * (j * den) ≤ 2 * x + den → j < K := by
    intro j hj
    by_contra hcon
    have hKj : K ≤ j := Nat.le_of_not_lt hcon
    have : K * den ≤ j * den := Nat.mul_le_mul_right den hKj
    omega
  have e0 : x / den * den = den * (x / den) := Nat.mul_comm _ _
  have key2 : 2 * (x % den) ≥ den → x / den + 1 < K := by
    intro hge
    apply key
    have e3 : (x / den + 1) * den = den * (x / den) + den := by ring
    omega
  unfold roundEven
  split
  · exact key _ (by omega)
  · split
    · exact key2 (by omega)
    · split
      · exact key _ (by omega)
      · exact key2 (by omega)

theorem log2Quot_le (num den : Nat) : log2Quot num den ≤ (ilog2 num : Int) - ilog2 den := by
  unfold log2Quot
  split <;> omega

/-- When the binary64 quotient has more binary places than `den` has binary digits,
rounding it does not change its whole part. -/
theorem floor64_binary64 (num den t : Nat) (hden : 0 < den) (ht : den < 2 ^ (t + 1))
    (he : (ilog2 num : Int) - ilog2 den - 52 ≤ -(t : Int)) :
    floor64 (binary64 num den) = num / den := by
  by_cases h0 : num = 0
  · simp [binary64, floor64, h0]
  · have hE : log2Quot num den - 52 ≤ -(t : Int) := by
      have := log2Quot_le num den
      omega
    unfold binary64
    rw [if_neg h0]
    unfold floor64
    dsimp only
    generalize log2Quot num den - 52 = e at hE ⊢
    have he0 : e.toNat = 0 := by omega
    obtain ⟨s, hs⟩ : ∃ s : Nat, (-e).toNat = s := ⟨_, rfl⟩
    have hts : t ≤ s := by omega
    rw [he0, hs]
    simp only [pow_zero, mul_one]
    have hpow : 2 ^ (t + 1) ≤ 2 ^ (s + 1) := Nat.pow_le_pow_right (by decide) (by omega)
    have hP : den < 2 * 2 ^ s := by
      rw [Nat.pow_succ] at hpow
      omega
    generalize 2 ^ s = P at hP ⊢
    have hdm := Nat.div_add_mod num den
    have hml := Nat.mod_lt num hden
    apply Nat.div_eq_of_lt_le
    · apply roundEven_ge _ _ _ hden
      have : num / den * den ≤ num := Nat.div_mul_le_self num den
      calc num / den * P * den = (num / den * den) * P := by ring
        _ ≤ num * P := Nat.mul_le_mul_right P this
    · apply roundEven_lt _ _ _ hden
      have h1 : num + 1 ≤ (num / den + 1) * den := by
        have : (num / den + 1) * den = den * (num / den) + den := by ring
        omega
      have h2 : P * (num + 1) ≤ P * ((num / den + 1) * den) := Nat.mul_le_mul_left P h1
      have e1 : (num / den).succ * P * den = P * ((num / den + 1) * den) := by
        rw [Nat.succ_eq_add_one]; ring
      have e2 : P * (num + 1) = num * P + P := by ring
      rw [e1]
      omega

/-- When the binary64 quotient has more binary places than `den` has binary digits,
rounding it does not change the whole number nearest to it. -/
theorem round64_binary64 (num den t : Nat) (hden : 0 < den) (ht : den < 2 ^ (t + 1))
    (he : (ilog2 num : Int) - ilog2 den - 52 ≤ -((t : Int) + 2)) :
    round64 (binary64 num den) = (2 * num + den) / (2 * den) := by
  by_cases h0 : num = 0
  · subst h0
    have hb : binary64 0 den = (0, 0) := by simp [binary64]
    rw [hb]
    unfold round64
    simp
    exact (Nat.div_eq_of_lt (by omega)).symm
  · have hE : log2Quot num den - 52 ≤ -((t : Int) + 2) := by
      have := log2Quot_le num den
      omega
    unfold binary64
    rw [if_neg h0]
    unfold round64
    dsimp only
    generalize log2Quot num den - 52 = e at hE ⊢
    have he0 : e.toNat = 0 := by omega
    obtain ⟨s, hs⟩ : ∃ s : Nat, (-e).toNat = s + 1 := ⟨(-e).toNat - 1, by omega⟩
    have hts : t + 1 ≤ s := by omega
    rw [he0, hs]
    simp only [pow_zero, mul_one]
    have hpow : 2 ^ (t + 1) ≤ 2 ^ s := Nat.pow_le_pow_right (by decide) hts
    have hP : den < 2 ^ s := by omega
    rw [Nat.pow_succ]
    generalize 2 ^ s = P at hP ⊢
    have hdm := Nat.div_add_mod (2 * num + den) (2 * den)
    have hml := Nat.mod_lt (2 * num + den) (by omega : 0 < 2 * den)
    generalize hr : (2 * num + den) / (2 * den) = r at hdm ⊢
    have e0 : 2 * den * r = 2 * (r * den) := by ring
    apply Nat.div_eq_of_lt_le
    · -- r * (2 * (P * 2)) ≤ 2 * roundEven (num * (P * 2)) den + P * 2
      cases r with
      | zero => simp
      | succ q =>
        have hm : (2 * q + 1) * P ≤ roundEven (num * (P * 2)) den := by
          apply roundEven_ge _ _ _ hden
          have h1 : (2 * q + 1) * den ≤ 2 * num := by
            have : 2 * ((q + 1) * den) = (2 * q + 1) * den + den := by ring
            omega
          calc (2 * q + 1) * P * den = ((2 * q + 1) * den) * P := by ring
            _ ≤ (2 * num) * P := Nat.mul_le_mul_right P h1
            _ = num * (P * 2) := by ring
        have e1 : (q + 1) * (2 * (P * 2)) = 2 * ((2 * q + 1) * P) + P * 2 := by ring
        omega
    · have hm : roundEven (num * (P * 2)) den < (2 * r + 1) * P := by
        apply roundEven_lt _ _ _ hden
        have h1 : 2 * num + 1 ≤ (2 * r + 1) * den := by
          have : (2 * r + 1) * den = 2 * (r * den) + den := by ring
          omega
        have h2 : P * (2 * num + 1) ≤ P * ((2 * r + 1) * den) := Nat.mul_le_mul_left P h1
        have e1 : (2 * r + 1) * P * den = P * ((2 * r + 1) * den) := by ring
        have e2 : P * (2 * num + 1) = num * (P * 2) + P := by ring
        rw [e1]
        omega
      have e3 : (r + 1) * (2 * (P * 2)) = 2 * ((2 * r + 1) * P) + P * 2 := by ring
      omega

theorem floorDiv_natCast (a b t : Nat) (hb : 0 < b) (ht : b < 2 ^ (t + 1))
    (he : (ilog2 a : Int) - ilog2 b - 52 ≤ -(t : Int)) :
    floorDiv (a : Int) b = ((a / b : Nat) : Int) := by
  unfold floorDiv
  rw [if_pos (Int.natCast_nonneg a), Int.toNat_natCast, floor64_binary64 a b t hb ht he]

theorem roundDiv_natCast (a b t : Nat) (hb : 0 < b) (ht : b < 2 ^ (t + 1))
    (he : (ilog2 a : Int) - ilog2 b - 52 ≤ -((t : Int) + 2)) :
    roundDiv (a : Int) b = (((2 * a + b) / (2 * b) : Nat) : Int) := by
  unfold roundDiv
  rw [if_pos (Int.natCast_nonneg a), Int.toNat_natCast, round64_binary64 a b t hb ht he]

theorem numberToString_eq (x : Nat) (h : x < 2 ^ 53) : numberToString x = toString x := by
  unfold numberToString
  rw [if_pos h]

/-- From one second up to `2 ^ 53` milliseconds every binary64 operation of
`humanizeMs` gives the exact result: the three parts are those of the documentation,
and the function strips the string assembled from them. -/
theorem humanizeMs_eq (ms : Nat) (h : 1000 ≤ ms) (hb : ms < 2 ^ 53) :
    humanizeMs ms =
      .text (stripTrailing (assemble (hoursOf ms) (minutesOf ms) (secondsOf ms))) := by
  have l1 : ilog2 3600000 = 21 := by decide
  have l2 : ilog2 60000 = 15 := by decide
  have l3 : ilog2 1000 = 9 := by decide
  have hms := ilog2_le ms 52 hb
  -- the hours
  have hH : floorDiv (ms : Int) 3600000 = ((hoursOf ms : Nat) : Int) :=
    floorDiv_natCast ms 3600000 21 (by decide) (by decide) (by rw [l1]; omega)
  have hHle : hoursOf ms * 3600000 ≤ ms := Nat.div_mul_le_self ms 3600000
  have hP : fl ((hoursOf ms : Int) * 3600000) = ((hoursOf ms * 3600000 : Nat) : Int) := by
    have := fl_natCast (hoursOf ms * 3600000) (by omega)
    rw [← this]
    push_cast
    rfl
  have hd1 : fl ((ms : Int) - ((hoursOf ms * 3600000 : Nat) : Int)) =
      ((ms - hoursOf ms * 3600000 : Nat) : Int) := by
    rw [← Int.ofNat_sub hHle]
    exact fl_natCast _ (by omega)
  -- the minutes
  have hr1 : ms - hoursOf ms * 3600000 < 3600000 := by unfold hoursOf; omega
  have e1 : (ms - hoursOf ms * 3600000) / 60000 = minutesOf ms := by
    unfold minutesOf; rw [Nat.mul_comm]
  have hM : floorDiv ((ms - hoursOf ms * 3600000 : Nat) : Int) 60000 =
      ((minutesOf ms : Nat) : Int) := by
    rw [← e1]
    have := ilog2_le (ms - hoursOf ms * 3600000) 21 (by omega)
    exact floorDiv_natCast _ 60000 15 (by decide) (by decide) (by rw [l2]; omega)
  have hMle : minutesOf ms * 60000 ≤ ms - hoursOf ms * 3600000 := by
    rw [← e1]; exact Nat.div_mul_le_self _ _
  have hP2 : fl ((minutesOf ms : Int) * 60000) = ((minutesOf ms * 60000 : Nat) : Int) := by
    have := fl_natCast (minutesOf ms * 60000) (by omega)
    rw [← this]
    push_cast
    rfl
  have hd2 : fl (((ms - hoursOf ms * 3600000 : Nat) : Int) -
      ((minutesOf ms * 60000 : Nat) : Int)) =
      ((ms - hoursOf ms * 3600000 - minutesOf ms * 60000 : Nat) : Int) := by
    rw [← Int.ofNat_sub hMle]
    exact fl_natCast _ (by omega)
  -- the seconds
  have hr2 : ms - hoursOf ms * 3600000 - minutesOf ms * 60000 < 60000 := by
    rw [← e1]; omega
  have e2 : (2 * (ms - hoursOf ms * 3600000 - minutesOf ms * 60000) + 1000) / (2 * 1000) =
      secondsOf ms := by
    unfold secondsOf
    rw [Nat.mul_comm (hoursOf ms), Nat.mul_comm (minutesOf ms)]
  have hS : roundDiv ((ms - hoursOf ms * 3600000 - minutesOf ms * 60000 : Nat) : Int) 1000 =
      ((secondsOf ms : Nat) : Int) := by
    rw [← e2]
    have := ilog2_le (ms - hoursOf ms * 3600000 - minutesOf ms * 60000) 15 (by omega)
    exact roundDiv_natCast _ 1000 9 (by decide) (by decide) (by rw [l3]; omega)
  have hHb : hoursOf ms < 2 ^ 53 := by omega
  have hMb : minutesOf ms < 2 ^ 53 := by omega
  have hSb : secondsOf ms < 2 ^ 53 := by rw [← e2]; omega
  unfold humanizeMs
  simp only [flNat_eq ms hb]
  rw [if_neg (by omega), if_neg (by omega)]
  simp only [hH, hP, hd1, hM, hP2, hd2, hS, Int.toNat_natCast, numberToString_eq _ hHb,
    numberToString_eq _ hMb, numberToString_eq _ hSb, gt_iff_lt, Int.natCast_pos]
  rfl

set_option maxRecDepth 100000 in
/-- C12, as stated, fails: for `ms = 10 ^ 20` the code returns
`'27777777777777h 46m 42s'`, while the parts of the claim are `h = 27777777777777`,
`m = 46` and `s = 40`: the product `hours * 3600000` is not a binary64 number and is
rounded, which moves the remainder from 2800000 to 2801664. -/
theorem humanizeMs_large :
    humanizeMs (10 ^ 20) = .text "27777777777777h 46m 42s" ∧
    readable (hoursOf (10 ^ 20)) (minutesOf (10 ^ 20)) (secondsOf (10 ^ 20)) =
      "27777777777777h 46m 40s" ∧
    humanizeMs (10 ^ 20) ≠
      .text (readable (hoursOf (10 ^ 20)) (minutesOf (10 ^ 20)) (secondsOf (10 ^ 20))) := by
  decide

/-- C12, amended: for every whole number of milliseconds with `1000 <= ms < 2 ^ 53`,
`humanizeMs(ms)` is the string made of `h + 'h'`, `m + 'm'` and `s + 's'`, the parts
that are zero left out, with one space between the parts, where
`h = floor(ms / 3600000)`, `m = floor((ms - 3600000 * h) / 60000)` and
`s = round((ms - 3600000 * h - 60000 * m) / 1000)`; that string is not empty and does
not end in white space. -/
theorem humanizeMs_readable (ms : Nat) (h : 1000 ≤ ms) (hb : ms < 2 ^ 53) :
    humanizeMs ms = .text (readable (hoursOf ms) (minutesOf ms) (secondsOf ms)) ∧
    readable (hoursOf ms) (minutesOf ms) (secondsOf ms) ≠ "" ∧
    (∀ c, (readable (hoursOf ms) (minutesOf ms) (secondsOf ms)).data.getLast? = some c →
      isWhiteSpace c = false) := by
  have hne : ¬ (hoursOf ms = 0 ∧ minutesOf ms = 0 ∧ secondsOf ms = 0) := by
    unfold secondsOf minutesOf hoursOf
    omega
  obtain ⟨l, c, hc, ha, hr⟩ := assemble_form _ _ _ hne
  refine ⟨?_, ?_, ?_⟩
  · rw [humanizeMs_eq ms h hb, ha, hr, stripTrailing_mk l c hc]
  · rw [hr]
    intro he
    have := congrArg String.data he
    simp at this
  · intro d hd
    rw [hr] at hd
    simp at hd
    rw [← hd]
    exact hc

/-- The amended C12 at the example of the documentation: `humanizeMs(3900000)` is
`'1h 5m'`. -/
theorem humanizeMs_readable_witness : humanizeMs 3900000 = .text "1h 5m" :=
  (humanizeMs_readable 3900000 (by decide) (by decide)).1.trans (by decide)

/-! ## C13 -/

theorem joinFrom_replicate (separator : String) (n k : Nat) (R : String) (hk : 0 < k) :
    joinFrom separator k (List.replicate n none) R = R ++ repeated separator n := by
  induction n generalizing k R with
  | zero => simp [joinFrom, repeated]
  | succ n ih =>
    rw [List.replicate_succ, joinFrom, if_pos hk, ih (k + 1) _ (Nat.succ_pos k)]
    simp [repeated, String.append_assoc]

theorem join_succ (separator : String) (n : Nat) :
    join (n + 1) separator = repeated separator n := by
  unfold join
  rw [List.replicate_succ, joinFrom, joinFrom_replicate _ _ _ _ (by decide)]
  simp

theorem repeated_length (s : String) (n : Nat) : (repeated s n).length = n * s.length := by
  induction n with
  | zero => simp [repeated]
  | succ n ih => simp [repeated, ih, Nat.succ_mul, Nat.add_comm]

/-- The result of `generateString` is the separator written `length` times. -/
theorem generateString_eq (length : Nat) (char : Option String) :
    generateString length char =
      repeated (match char with
        | some c => if c = "" then "x" else c
        | none => "x") length := by
  unfold generateString
  cases length with
  | zero => rfl
  | succ n =>
    have h : ((if n + 1 = 0 then -1 else ((n + 1 : Nat) : Int)) + 1).toNat = n + 1 + 1 := by
      rw [if_neg (by omega)]
      omega
    rw [h, join_succ]

/-- C13 fails on the code: `generateString(3, 'ab')` is `'ababab'`, which has six
characters, not the three of the specified length. -/
theorem generateString_two_characters :
    generateString 3 (some "ab") = "ababab" ∧
    (generateString 3 (some "ab")).length = 6 ∧
    (generateString 3 (some "ab")).length ≠ 3 := by
  decide

/-- What `generateString` returns in general: for every non-negative whole `length`,
`generateString(length, char)` is `char` written `length` times, with `'x'` in the
place of an omitted or empty `char`; it has `length` times as many characters as
`char` has, so exactly `length` characters when `char` is one character or is
omitted or empty. -/
theorem generateString_repeats (length : Nat) :
    (∀ c : String, c ≠ "" →
      generateString length (some c) = repeated c length ∧
      (generateString length (some c)).length = length * c.length ∧
      (c.length = 1 → (generateString length (some c)).length = length)) ∧
    generateString length none = repeated "x" length ∧
    generateString length (some "") = repeated "x" length ∧
    (generateString length none).length = length ∧
    (generateString length (some "")).length = length := by
  have hx : ("x" : String).length = 1 := rfl
  refine ⟨?_, ?_, ?_, ?_, ?_⟩
  · intro c hc
    have he : generateString length (some c) = repeated c length := by
      rw [generateString_eq]
      simp [hc]
    refine ⟨he, ?_, ?_⟩
    · rw [he, repeated_length]
    · intro h1
      rw [he, repeated_length, h1, Nat.mul_one]
  · rw [generateString_eq]
  · rw [generateString_eq]
    simp
  · rw [generateString_eq, repeated_length, hx, Nat.mul_one]
  · rw [generateString_eq]
    simp only [if_true]
    rw [repeated_length, hx, Nat.mul_one]

/-- The examples of the documentation and one character: `generateString(3)` is
`'xxx'`, `generateString(0)` is `''`, and `generateString(3, 'a')` has three
characters. -/
theorem generateString_examples :
    generateString 3 none = "xxx" ∧ generateString 0 none = "" ∧
    (generateString 3 (some "a")).length = 3 :=
  ⟨(generateString_repeats 3).2.1.trans (by decide),
    (generateString_repeats 0).2.1.trans (by decide),
    ((generateString_repeats 3).1 "a" (by decide)).2.2 (by decide)⟩

/-! ## C14 -/

/-- In every run, `scheduled` is the number of targeted-bad calls made so far. -/
theorem shapeTest_scheduled {σ γ : Type} (api : Api σ γ) (scope : γ)
    (argTypes : List String) (s : σ) :
    (shapeTest api scope argTypes s).harness.scheduled =
      ((applied (shapeTest api scope argTypes s).harness.trace).filter
        (fun c => decide (c.1 = CallSite.badArgs))).length := by
  have key := forEach_induction api scope argTypes allArgsList
    (fun h => h.scheduled =
      ((applied h.trace).filter (fun c => decide (c.1 = CallSite.badArgs))).length)
    (by
      intro v _ r hr
      rcases probe_applied api scope argTypes v r with ⟨ha, hs, _⟩ | ⟨ha, hs, _⟩
      · show (probe api scope argTypes v r).harness.scheduled = _
        rw [ha, hs, List.filter_append, List.length_append, ← hr]
        simp
      · show (probe api scope argTypes v r).harness.scheduled = _
        rw [ha, hs, List.filter_append, List.length_append, ← hr]
        simp)
    (start s) (by simp [start, applied])
  rw [(shapeTest_harness api scope argTypes s).1, (shapeTest_harness api scope argTypes s).2.2]
  exact key

/-- The places of the elements of a list that meet a condition: as many different
indices as there are such elements. -/
theorem exists_indices {α : Type} (q : α → Bool) (A : List α) :
    ∃ idx : List Nat, idx.Nodup ∧ idx.length = (A.filter q).length ∧
      ∀ k ∈ idx, ∃ c, A[k]? = some c ∧ q c = true := by
  induction A with
  | nil => exact ⟨[], List.nodup_nil, rfl, by simp⟩
  | cons a t ih =>
    obtain ⟨idx, hnd, hlen, hmem⟩ := ih
    have hmap : (idx.map (· + 1)).Nodup :=
      hnd.map (fun x y hxy => Nat.succ_injective hxy)
    have hsucc : ∀ k ∈ idx.map (· + 1), ∃ c, (a :: t)[k]? = some c ∧ q c = true := by
      intro k hk
      obtain ⟨j, hj, hjk⟩ := List.mem_map.mp hk
      obtain ⟨c, hc, hq⟩ := hmem j hj
      exact ⟨c, by rw [← hjk]; simpa using hc, hq⟩
    by_cases hq : q a = true
    · refine ⟨0 :: idx.map (· + 1), ?_, ?_, ?_⟩
      · refine List.nodup_cons.mpr ⟨?_, hmap⟩
        intro h0
        obtain ⟨j, _, hj⟩ := List.mem_map.mp h0
        exact absurd hj (Nat.succ_ne_zero j)
      · simp [List.filter_cons, hq, hlen]
      · intro k hk
        rcases List.mem_cons.mp hk with h | h
        · exact ⟨a, by rw [h]; simp, hq⟩
        · exact hsucc k h
    · refine ⟨idx.map (· + 1), hmap, ?_, hsucc⟩
      simp [List.filter_cons, hq, hlen]

theorem count_filterMap {α β : Type} [DecidableEq β] (f : α → Option β) (b : β)
    (l : List α) :
    (l.filterMap f).count b = (l.filter (fun x => decide (f x = some b))).length := by
  induction l with
  | nil => rfl
  | cons x l ih =>
    cases hx : f x with
    | none => simp [List.filterMap_cons, hx, List.filter_cons, ih]
    | some y =>
      by_cases hy : y = b
      · simp [List.filterMap_cons, hx, List.filter_cons, ih, hy]
      · simp [List.filterMap_cons, hx, List.filter_cons, ih, hy, List.count_cons]

/-- A synthetic error callback stands at every `'errorCallback'` position of the list
of a targeted-bad call. -/
theorem resolve_badArgs {argTypes : List String} {h : Harness}
    (hw : WellFormed argTypes h) {k j : Nat} {c : CallSite × List JSValue}
    (hc : (applied h.trace)[k]? = some c) (hbad : c.1 = CallSite.badArgs)
    (hj : argTypes[j]? = some "errorCallback") :
    resolve h.trace ⟨k, j⟩ = some .errorCallback := by
  obtain ⟨v, _, hor⟩ := hw c (List.getElem?_mem hc)
  have hargs : c.2 = badArgs argTypes v := by
    rcases hor with ⟨hall, _⟩ | ⟨_, hargs⟩
    · rw [hbad] at hall
      exact absurd hall (by simp)
    · exact hargs
  have hget : c.2[j]? = some (JSValue.function .errorCallback) := by
    rw [hargs, badArgs_getElem?, hj]
    simp [badArgsMapper]
  unfold resolve
  dsimp only
  rw [hc]
  dsimp only
  rw [hget]

/-- When each synthetic error callback that was handed over is called later, the later
calls of synthetic error callbacks are at least as many as the calls scheduled. -/
theorem scheduled_le_count {σ γ : Type} (api : Api σ γ) (scope : γ)
    (argTypes : List String) (s : σ) (later : List Pending)
    (he : "errorCallback" ∈ argTypes)
    (hin : ∀ p, resolve (shapeTest api scope argTypes s).harness.trace p =
      some .errorCallback → p ∈ later) :
    (shapeTest api scope argTypes s).harness.scheduled ≤
      (later.filterMap (resolve (shapeTest api scope argTypes s).harness.trace)).count
        .errorCallback := by
  have hwf : WellFormed argTypes (shapeTest api scope argTypes s).harness := by
    unfold WellFormed
    rw [(shapeTest_harness api scope argTypes s).2.2]
    exact wellFormed_forEach api scope argTypes s
  obtain ⟨j, hj⟩ := List.mem_iff_getElem?.mp he
  obtain ⟨idx, hnd, hlen, hmem⟩ := exists_indices
    (fun c : CallSite × List JSValue => decide (c.1 = CallSite.badArgs))
    (applied (shapeTest api scope argTypes s).harness.trace)
  have hres : ∀ k ∈ idx, resolve (shapeTest api scope argTypes s).harness.trace ⟨k, j⟩ =
      some .errorCallback := by
    intro k hk
    obtain ⟨c, hc, hq⟩ := hmem k hk
    exact resolve_badArgs hwf hc (by simpa using hq) hj
  have hnd2 : (idx.map (fun k => (⟨k, j⟩ : Pending))).Nodup :=
    hnd.map (fun x y hxy => by injection hxy)
  have hsub : idx.map (fun k => (⟨k, j⟩ : Pending)) ⊆
      later.filter (fun p => decide
        (resolve (shapeTest api scope argTypes s).harness.trace p = some .errorCallback)) := by
    intro p hp
    obtain ⟨k, hk, hkp⟩ := List.mem_map.mp hp
    subst hkp
    exact List.mem_filter.mpr ⟨hin _ (hres k hk), by simpa using hres k hk⟩
  have hle := (List.subperm_of_subset hnd2 hsub).length_le
  rw [List.length_map, hlen, ← shapeTest_scheduled] at hle
  rw [count_filterMap]
  exact hle

theorem resolve_lt {trace : List Event} {p : Pending} {f : JSFun} (n m : Nat)
    (hn : (applied trace).length ≤ n) (hm : ∀ c ∈ applied trace, c.2.length ≤ m)
    (hp : resolve trace p = some f) : p.call < n ∧ p.position < m := by
  unfold resolve at hp
  split at hp
  · next site args hc =>
    have h1 := (List.getElem?_eq_some.mp hc).1
    have h2 := hm _ (List.getElem?_mem hc)
    split at hp
    · next g hg =>
      have h3 := (List.getElem?_eq_some.mp hg).1
      dsimp only at h2
      exact ⟨by omega, by omega⟩
    · exact absurd hp (by simp)
  · exact absurd hp (by simp)

/-- C14, as stated, fails: with `argTypes = ['string', 'callback']` nine calls are
scheduled, no synthetic error callback is ever handed to the target, and a target
that calls nothing at all (so also each synthetic error callback it was handed once)
leaves the run without timer and without any call of the completion callback. -/
theorem shapeTest_silent_never_reports :
    (shapeTest silent () ["string", "callback"] ()).harness.scheduled = 9 ∧
    (shapeTest silent () ["string", "callback"] ()).harness.executed = 0 ∧
    (∀ c ∈ applied (shapeTest silent () ["string", "callback"] ()).harness.trace,
      JSValue.function .errorCallback ∉ c.2) ∧
    Event.setTimeout 2000 ∉ (shapeTest silent () ["string", "callback"] ()).harness.trace ∧
    reports (settle (shapeTest silent () ["string", "callback"] ()) [] []).trace = [] ∧
    (reports (settle (shapeTest silent () ["string", "callback"] ()) [] []).trace).length
      ≠ 1 := by
  decide

/-- C14, amended: let `argTypes` have an `'errorCallback'` position, let calls be
scheduled (`scheduled > 0`), let the target have called no synthetic callback while
`shapeTest` ran (`executed` is 0 and nothing was reported), and let it later call
each synthetic error callback it was handed exactly once and never a synthetic
success callback, in the order `later`.  Then no timer is set; after the first `k`
later calls the completion callback has been called once with `true` if the calls of
synthetic error callbacks among them number at least `scheduled`, and not at all
otherwise; the calls of synthetic error callbacks do reach that number; and over
the whole run the completion callback is called exactly once, with `true`. -/
theorem shapeTest_answered_later {σ γ : Type} (api : Api σ γ) (scope : γ)
    (argTypes : List String) (s : σ) (later : List Pending) (k : Nat)
    (he : "errorCallback" ∈ argTypes)
    (hpos : 0 < (shapeTest api scope argTypes s).harness.scheduled)
    (hex : (shapeTest api scope argTypes s).harness.executed = 0)
    (hrep : reports (shapeTest api scope argTypes s).harness.trace = [])
    (honce : ∀ p, resolve (shapeTest api scope argTypes s).harness.trace p =
      some .errorCallback → later.count p = 1)
    (hnos : ∀ p ∈ later,
      resolve (shapeTest api scope argTypes s).harness.trace p ≠ some .successCallback) :
    (∀ n, Event.setTimeout n ∉ (shapeTest api scope argTypes s).harness.trace) ∧
    reports (fire ((later.take k).filterMap
        (resolve (shapeTest api scope argTypes s).harness.trace))
        (shapeTest api scope argTypes s).harness).trace =
      (if (shapeTest api scope argTypes s).harness.scheduled ≤
          ((later.take k).filterMap
            (resolve (shapeTest api scope argTypes s).harness.trace)).count .errorCallback
        then [(true, none)] else []) ∧
    (shapeTest api scope argTypes s).harness.scheduled ≤
      (later.filterMap
        (resolve (shapeTest api scope argTypes s).harness.trace)).count .errorCallback ∧
    reports (settle (shapeTest api scope argTypes s) (later.take k) (later.drop k)).trace =
      [(true, none)] := by
  have hcount := scheduled_le_count api scope argTypes s later he (by
    intro p hp
    have := honce p hp
    exact List.count_pos_iff.mp (by omega))
  have htimer : ∀ n, Event.setTimeout n ∉ (shapeTest api scope argTypes s).harness.trace := by
    intro n hmem
    have := (shapeTest_timer api scope argTypes s n).mp hmem
    omega
  have hno : ∀ l : List Pending, (∀ p ∈ l, p ∈ later) →
      JSFun.successCallback ∉
        l.filterMap (resolve (shapeTest api scope argTypes s).harness.trace) := by
    intro l hl hm
    obtain ⟨p, hp, hres⟩ := List.mem_filterMap.mp hm
    exact hnos p (hl p hp) hres
  refine ⟨htimer, ?_, hcount, ?_⟩
  · rw [(reports_fire _ _ (hno _ (fun p hp => List.mem_of_mem_take hp))).1, hrep, hex]
    simp [hpos]
  · rw [settle_unarmed _ _ _ (htimer 2000), List.take_append_drop,
      (reports_fire _ _ (hno later (fun p hp => hp))).1, hrep, hex]
    simp [hpos, hcount]

/-- The amended C14 at `['string', 'callback', 'errorCallback']` and the target that
answers later, its pending calls arriving in the order in which they were announced,
looked at after the first twelve of them. -/
theorem shapeTest_answered_later_witness :
    reports (settle (shapeTest typeCheckedLater () scenario ())
      ((shapeTest typeCheckedLater () scenario ()).pending.take 12)
      ((shapeTest typeCheckedLater () scenario ()).pending.drop 12)).trace =
        [(true, none)] :=
  (shapeTest_answered_later typeCheckedLater () scenario ()
    (shapeTest typeCheckedLater () scenario ()).pending 12
    (by decide) (by decide) (by decide) (by decide)
    (fun p hp => by
      have hb : ∀ k < 19, ∀ i < 3,
          resolve (shapeTest typeCheckedLater () scenario ()).harness.trace ⟨k, i⟩ =
            some .errorCallback →
          (shapeTest typeCheckedLater () scenario ()).pending.count ⟨k, i⟩ = 1 := by
        decide
      have hlt := resolve_lt 19 3 (by decide) (by decide) hp
      exact hb p.call hlt.1 p.position hlt.2 hp)
    (by decide)).2.2.2

end utils
